import Mathlib

/-!
Verification of the chunking / structural-splitting engine of the
`url-to-training-data` repository (files `chunker.py`, `table_list_splitter.py`,
`data_extraction.py`).

Python strings are modelled as Lean `String`s; all operations are implemented
structurally over `String.data : List Char` so that every definition is
executable and kernel-reducible.  Regular expressions from the source are
translated into explicit character-level scanners; each translation carries a
comment citing the original pattern.  The HuggingFace tokenizer backend is
modelled as an optional fallible encoding function
`Option (String → Except String (List Nat))`: `none` is an unavailable
tokenizer, `Except.error` a backend exception during one `encode` call.
-/

set_option maxRecDepth 100000

namespace UTD

/-! ## Character and string primitives (Python semantics, ASCII scope) -/

/-- Python whitespace (`str.strip`, regex `\s`), ASCII scope:
space, tab, newline, carriage return, vertical tab, form feed. -/
def pyWs (c : Char) : Bool :=
  c = ' ' || c = '\t' || c = '\n' || c = '\r' || c = '\x0b' || c = '\x0c'

/-- Python regex `\w` (ASCII scope): letters, digits, underscore. -/
def pyWord (c : Char) : Bool :=
  c.isAlpha || c.isDigit || c = '_'

/-- Drop trailing elements satisfying `p` (helper for `strip`). -/
def dropRightWhile (p : Char → Bool) (l : List Char) : List Char :=
  (l.reverse.dropWhile p).reverse

/-- Models `str.strip()` on char lists. -/
def stripCh (l : List Char) : List Char :=
  dropRightWhile pyWs (l.dropWhile pyWs)

/-- Models `str.strip()`. -/
def pyStrip (s : String) : String := String.mk (stripCh s.data)

/-- Models `str.lstrip()`. -/
def pyLStrip (s : String) : String := String.mk (s.data.dropWhile pyWs)

/-- Models `str.rstrip()`. -/
def pyRStrip (s : String) : String := String.mk (dropRightWhile pyWs s.data)

/-- Models `text.split(sep)` for a single-character separator, on char lists.
Always returns a non-empty list; `"".split c = [[]]`. -/
def splitCh (sep : Char) : List Char → List (List Char)
  | [] => [[]]
  | c :: rest =>
    if c = sep then [] :: splitCh sep rest
    else
      match splitCh sep rest with
      | g :: gs => (c :: g) :: gs
      | [] => [[c]]

/-- Models `text.split('\n')`. -/
def pyLines (s : String) : List String :=
  (splitCh '\n' s.data).map String.mk

/-- Models `sep.join(parts)` on char lists. -/
def intercalateCh (sep : List Char) : List (List Char) → List Char
  | [] => []
  | [g] => g
  | g :: gs => g ++ sep ++ intercalateCh sep gs

/-- Models `sep.join(parts)` for strings. -/
def joinSep (sep : String) (parts : List String) : String :=
  String.mk (intercalateCh sep.data (parts.map String.data))

/-- Models `'\n'.join(parts)`. -/
def joinNl (parts : List String) : String := joinSep "\n" parts

/-- The non-whitespace characters of a char list, in order. -/
def nonWs (l : List Char) : List Char := l.filter (fun c => !pyWs c)

/-- Models `len(s.split())` (split on whitespace runs, empty pieces dropped):
the Python word count used by `_merge_orphaned_headings`. -/
def pyWordCount (s : String) : Nat :=
  ((splitCh ' ' (String.mk (s.data.map (fun c => if pyWs c then ' ' else c))).data).filter
    (fun g => g ≠ [])).length

/-- Models `s.startswith(p)`. -/
def pyStartsWith (s p : String) : Bool := p.data.isPrefixOf s.data

/-! ## Token counter (`TextChunker.count_tokens`, chunker.py lines 42-59)

```python
if not self.tokenizer or not text:
    return 0
try:
    return len(self.tokenizer.encode(text))
except Exception:
    return 0
```
-/

/-- The tokenizer capability: `none` = unavailable; `some enc` = a backend whose
single `encode` call may itself fail (`Except.error`). -/
abbrev Tokenizer := Option (String → Except String (List Nat))

/-- Models `TextChunker.count_tokens`. -/
def count_tokens (tok : Tokenizer) (text : String) : Nat :=
  match tok with
  | none => 0
  | some enc =>
    if text = "" then 0
    else
      match enc text with
      | Except.ok ids => ids.length
      | Except.error _ => 0

/-- Character-weight token counter: the shape of every deterministic
"working tokenizer" used in the theorems below. -/
def countW (w : Char → Nat) (s : String) : Nat :=
  (s.data.map w).sum

/-! ## Regex translations (table_list_splitter.py)

Each matcher gives the boolean of `re.match(pattern, line)` on a single line
(no `'\n'` inside).  Backtracking has been resolved by hand: after a greedy
run of a character class, the required next literal is not in the class, so
the run is uniquely the maximal one. -/

/-- First non-whitespace character, if any. -/
def firstNonWs (l : List Char) : Option Char := (l.dropWhile pyWs).head?

/-- Models `\s+\w` at the start of `l`: one-or-more whitespace then a word char. -/
def wsThenWord (l : List Char) : Bool :=
  match l with
  | c :: _ => pyWs c && (match firstNonWs l with | some e => pyWord e | none => false)
  | [] => false

/-- Models `re.match(r'^[*\-+]\s+\w', line)`. -/
def matchBulletItem (line : String) : Bool :=
  match line.data with
  | c :: rest => (c = '*' || c = '-' || c = '+') && wsThenWord rest
  | [] => false

/-- Models `re.match(r'^\d+\.\s+\w', line)`. -/
def matchNumberedItem (line : String) : Bool :=
  let ds := line.data.takeWhile Char.isDigit
  match line.data.drop ds.length with
  | '.' :: rest => ds ≠ [] && wsThenWord rest
  | _ => false

/-- A top-level list item line (used by `detect_long_list` / `split_long_list`). -/
def isItemLine (line : String) : Bool := matchBulletItem line || matchNumberedItem line

/-- Models `re.match(r'^\*\s+', line)`. -/
def matchStarWs (line : String) : Bool :=
  match line.data with
  | '*' :: d :: _ => pyWs d
  | _ => false

/-- Models `re.match(r'^\*\s+\w', line)`. -/
def matchStarWsWord (line : String) : Bool :=
  match line.data with
  | '*' :: rest => wsThenWord rest
  | _ => false

/-- Models `re.match(r'^\*\s+\[', line)`. -/
def matchStarWsBracket (line : String) : Bool :=
  match line.data with
  | '*' :: rest =>
    (match rest with
     | c :: _ => pyWs c && firstNonWs rest = some '['
     | [] => false)
  | _ => false

/-- Models `re.match(r'^\s+', line)`. -/
def matchStartsWs (line : String) : Bool :=
  match line.data with
  | c :: _ => pyWs c
  | [] => false

/-- Models `re.match(r'^\s{2,}\*\s+', line)`: at least two whitespace chars, then
`*`, then whitespace.  The `*` is the first non-whitespace char, so the
leading run is uniquely the maximal one. -/
def matchIndentBullet (line : String) : Bool :=
  let ws := line.data.takeWhile pyWs
  2 ≤ ws.length &&
    (match line.data.drop ws.length with
     | '*' :: d :: _ => pyWs d
     | _ => false)

/-- Models `re.match(r'^\s+\*\s+', line)`: one-or-more whitespace, `*`, whitespace
(used by `split_nested_bullet_table` group continuation). -/
def matchIndentBullet1 (line : String) : Bool :=
  let ws := line.data.takeWhile pyWs
  1 ≤ ws.length &&
    (match line.data.drop ws.length with
     | '*' :: d :: _ => pyWs d
     | _ => false)

/-- Models `re.match(r'^\|[\s\-:]+\|', stripped)`: a table alignment-separator line. -/
def matchTableSep (line : String) : Bool :=
  match line.data with
  | '|' :: rest =>
    let cl := rest.takeWhile (fun c => pyWs c || c = '-' || c = ':')
    cl ≠ [] && (rest.drop cl.length).head? = some '|'
  | _ => false

/-- If `p.isPrefixOf l`, the remainder after `p`. -/
def dropLit (p : String) (l : List Char) : Option (List Char) :=
  if p.data.isPrefixOf l then some (l.drop p.data.length) else none

/-- Continuation-marker pattern
`\*\*\[Part \d+ of \d+(?:\s+-\s+Continued)?\]\*\*`: if it matches a prefix of
`l`, returns the remainder after the match.  The optional group is tried
first (greedy) with fallback, as the regex engine does. -/
def partMarkerEnd (l : List Char) : Option (List Char) :=
  match dropLit "**[Part " l with
  | none => none
  | some r1 =>
    let ds := r1.takeWhile Char.isDigit
    if ds = [] then none else
    match dropLit " of " (r1.drop ds.length) with
    | none => none
    | some r2 =>
      let ds2 := r2.takeWhile Char.isDigit
      if ds2 = [] then none else
      let r3 := r2.drop ds2.length
      let withCont : Option (List Char) :=
        let w1 := r3.takeWhile pyWs
        if w1 = [] then none else
        match r3.drop w1.length with
        | '-' :: r4 =>
          let w2 := r4.takeWhile pyWs
          if w2 = [] then none else
          match dropLit "Continued" (r4.drop w2.length) with
          | some r5 => dropLit "]**" r5
          | none => none
        | _ => none
      match withCont with
      | some r6 => some r6
      | none => dropLit "]**" r3

/-- Models `re.match` boolean of the continuation-marker pattern. -/
def matchPartMarker (line : String) : Bool := (partMarkerEnd line.data).isSome

/-- Models `re.sub(marker_pattern, '', text)`: leftmost non-overlapping removal.
`fuel` bounds the recursion (each step consumes at least one char, so
`fuel = l.length` suffices; the fuel-exhausted branch is unreachable). -/
def subMarkersAux : Nat → List Char → List Char
  | 0, l => l
  | _, [] => []
  | fuel + 1, c :: rest =>
    match partMarkerEnd (c :: rest) with
    | some r => subMarkersAux fuel r
    | none => c :: subMarkersAux fuel rest

/-- Models `re.sub(r'\*\*\[Part \d+ of \d+(?:\s+-\s+Continued)?\]\*\*', '', text)`. -/
def subMarkers (s : String) : String :=
  String.mk (subMarkersAux s.data.length s.data)

/-! ## `TableListSplitter` (table_list_splitter.py) -/

/-- Constructor arguments of `TableListSplitter`, with its defaults. -/
structure SplitterCfg where
  items_per_chunk : Nat := 12
  rows_per_chunk : Nat := 8
  groups_per_chunk : Nat := 8
  min_long_list : Nat := 25
  min_long_table : Nat := 15
  min_nested_groups : Nat := 5
  min_nested_items : Nat := 12

/-- Default-constructed splitter. -/
def tcfgDefault : SplitterCfg := {}

/-- Inner lookahead of `detect_long_list` (lines `i+1 .. min(i+5, len)-1`):
nested if an indented bullet appears before a non-empty line that is not a
top-level `*` bullet. -/
def nestedLook : List String → Bool
  | [] => false
  | l :: rest =>
    if matchIndentBullet l then true
    else if pyStrip l ≠ "" && !matchStarWs l then false
    else nestedLook rest

/-- Outer pre-scan of `detect_long_list`: does the text look like a nested
bullet table? -/
def hasNestedStructure : List String → Bool
  | [] => false
  | l :: rest =>
    if matchStarWs l && !matchStartsWs l then
      if nestedLook (rest.take 4) then true else hasNestedStructure rest
    else hasNestedStructure rest

/-- Number of top-level list-item lines. -/
def mainItemCount (lines : List String) : Nat :=
  (lines.filter isItemLine).length

/-- Models `TableListSplitter.detect_long_list`. -/
def detect_long_list (cfg : SplitterCfg) (text : String) : Bool :=
  let lines := pyLines text
  if hasNestedStructure lines then false
  else cfg.min_long_list ≤ mainItemCount lines

/-- Models `TableListSplitter.detect_long_table` row count: lines whose stripped
form starts with `|` and is not a separator line, minus one header row. -/
def tableRowCount (lines : List String) : Nat :=
  let n := (lines.filter (fun l =>
    let s := pyStrip l
    pyStartsWith s "|" && !matchTableSep s)).length
  if n > 1 then n - 1 else n

/-- Models `TableListSplitter.detect_long_table`. -/
def detect_long_table (cfg : SplitterCfg) (text : String) : Bool :=
  cfg.min_long_table ≤ tableRowCount (pyLines text)

/-- Line scan of `detect_nested_bullet_table`: state is
`(group_count, total_nested_count, in_group, has_nested)`. -/
def nestedScanStep (st : Nat × Nat × Bool × Bool) (line : String) :
    Nat × Nat × Bool × Bool :=
  let (gc, total, inG, hasN) := st
  if (matchStarWsWord line || matchStarWsBracket line) && !matchStartsWs line then
    (gc + (if inG && hasN then 1 else 0), total, true, false)
  else if matchIndentBullet line && inG then
    (gc, total + 1, inG, true)
  else st

/-- Models `TableListSplitter.detect_nested_bullet_table`. -/
def detect_nested_bullet_table (cfg : SplitterCfg) (text : String) : Bool :=
  let lines := pyLines (subMarkers text)
  let (gc, total, inG, hasN) := lines.foldl nestedScanStep (0, 0, false, false)
  let gc := gc + (if inG && hasN then 1 else 0)
  cfg.min_nested_groups ≤ gc || cfg.min_nested_items ≤ total

/-- Item extraction of `split_long_list` (lines from `list_start_idx` on):
a matching line starts a new item, other lines continue the current item;
with no current item a non-matching line is dropped. -/
def collectItems : List String → List String → List String → List String
  | [], cur, acc => if cur ≠ [] then acc ++ [joinNl cur] else acc
  | l :: rest, cur, acc =>
    if isItemLine l then
      if cur ≠ [] then collectItems rest [l] (acc ++ [joinNl cur])
      else collectItems rest [l] acc
    else
      if cur ≠ [] then collectItems rest (cur ++ [l]) acc
      else collectItems rest cur acc

/-- Chunk assembly of `split_long_list`: one chunk per slice
`list_items[i : i+items_per_chunk]`.  `fuel` bounds the recursion
(`fuel = items.length` suffices when `items_per_chunk > 0`; Python raises
`ValueError` on a zero step, which is outside this model). -/
def mkListChunksAux (cfg : SplitterCfg) (heading : String) (total : Nat) :
    Nat → Nat → List String → List String
  | 0, _, _ => []
  | fuel + 1, i, rem =>
    if rem = [] then []
    else
      let batch := rem.take cfg.items_per_chunk
      let chunk_end := min (i + cfg.items_per_chunk) total
      let part_num := i / cfg.items_per_chunk + 1
      let marker := "\n**[Part " ++ toString part_num ++ ": Items " ++
        toString (i + 1) ++ "-" ++ toString chunk_end ++ " of " ++
        toString total ++ " total]**\n"
      let parts := (if heading ≠ "" then [heading] else []) ++ [marker, joinNl batch]
      joinSep "\n\n" parts ::
        mkListChunksAux cfg heading total fuel (i + cfg.items_per_chunk)
          (rem.drop cfg.items_per_chunk)

/-- Heading/preamble lines of `split_long_list`: the lines before the first
top-level item line (`heading_lines` in the source). -/
def listHeadingLines (text : String) : List String :=
  (pyLines text).takeWhile (fun l => !isItemLine l)

/-- The extracted `list_items` of `split_long_list`. -/
def listItemsOf (text : String) : List String :=
  collectItems ((pyLines text).drop (listHeadingLines text).length) [] []

/-- Models `TableListSplitter.split_long_list`.  `guide_title` is accepted but,
as in the source, never read. -/
def split_long_list (cfg : SplitterCfg) (text : String)
    (guide_title : String := "") : List String :=
  let _ := guide_title
  if (listHeadingLines text).length = (pyLines text).length then [text]
  else
    let heading_text := pyStrip (joinNl (listHeadingLines text))
    let items := listItemsOf text
    if items = [] then [text]
    else mkListChunksAux cfg heading_text items.length items.length 0 items

/-- Models `s.endswith(p)`. -/
def pyEndsWith (s p : String) : Bool := p.data.isSuffixOf s.data

/-- Models `s.lstrip('#')`. -/
def lstripHash (s : String) : String := String.mk (s.data.dropWhile (· = '#'))

/-- Models `s.strip('*')`. -/
def stripStars (s : String) : String :=
  String.mk ((s.data.dropWhile (· = '*')).reverse.dropWhile (· = '*') |>.reverse)

/-- Table-name extraction of `split_long_table` from the line preceding the
table (`None` when there is no preceding line or it is empty). -/
def tableNameOf (H : List String) : Option String :=
  match H.getLast? with
  | none => none
  | some last =>
    let ll := pyStrip last
    if pyStartsWith ll "#" then some (pyStrip (lstripHash ll))
    else if pyStartsWith ll "**" && pyEndsWith ll "**" then some (pyStrip (stripStars ll))
    else if ll ≠ "" then some ll
    else none

/-- Python truthiness of the extracted name: `f" - {name}" if table_name else ""`. -/
def nameContext (name : Option String) : String :=
  match name with
  | some n => if n ≠ "" then " - " ++ n else ""
  | none => ""

/-- Table-component scan of `split_long_table`: from the first `|` line,
collect (header, separator, data rows), all stripped; stops at the first
line not starting with `|`. -/
def scanTable : List String → Option String → Option String → List String →
    Option String × Option String × List String
  | [], h, sep, rows => (h, sep, rows)
  | l :: rest, h, sep, rows =>
    let s := pyStrip l
    if !pyStartsWith s "|" then (h, sep, rows)
    else if matchTableSep s then scanTable rest h (some s) rows
    else
      match h with
      | none => scanTable rest (some s) sep rows
      | some _ => scanTable rest h sep (rows ++ [s])

/-- Chunk assembly of `split_long_table`: one chunk per slice
`table_rows[i : i+rows_per_chunk]`, each repeating header and separator. -/
def mkTableChunksAux (cfg : SplitterCfg) (heading : String) (ctx : String)
    (header : String) (sep : Option String) (total : Nat) :
    Nat → Nat → List String → List String
  | 0, _, _ => []
  | fuel + 1, i, rem =>
    if rem = [] then []
    else
      let batch := rem.take cfg.rows_per_chunk
      let chunk_end := min (i + cfg.rows_per_chunk) total
      let part_num := i / cfg.rows_per_chunk + 1
      let marker := "\n**[Part " ++ toString part_num ++ ": Rows " ++
        toString (i + 1) ++ "-" ++ toString chunk_end ++ " of " ++
        toString total ++ " total" ++ ctx ++ "]**\n"
      let table_lines := [header] ++ (match sep with | some s => [s] | none => []) ++ batch
      let parts := (if heading ≠ "" then [heading] else []) ++ [marker, joinNl table_lines]
      joinSep "\n\n" parts ::
        mkTableChunksAux cfg heading ctx header sep total fuel
          (i + cfg.rows_per_chunk) (rem.drop cfg.rows_per_chunk)

/-- Models `TableListSplitter.split_long_table`.  `guide_title` is accepted but,
as in the source, never read. -/
def split_long_table (cfg : SplitterCfg) (text : String)
    (guide_title : String := "") : List String :=
  let _ := guide_title
  let lines := pyLines text
  let H := lines.takeWhile (fun l => !pyStartsWith (pyStrip l) "|")
  if H.length = lines.length then [text]
  else
    let heading_text := pyStrip (joinNl H)
    let name := tableNameOf H
    let (header?, sep, rows) := scanTable (lines.drop H.length) none none []
    match header? with
    | none => [text]
    | some header =>
      if rows = [] then [text]
      else
        mkTableChunksAux cfg heading_text (nameContext name) header sep
          rows.length rows.length 0 rows

/-- Lookahead of `split_nested_bullet_table` start detection (lines
`i+1 .. min(i+5, len)-1`): true if an indented bullet appears before a
non-empty line that is neither a `*` bullet nor indented. -/
def nestedLook2 : List String → Bool
  | [] => false
  | l :: rest =>
    if matchIndentBullet l then true
    else if pyStrip l ≠ "" && !matchStarWs l && !matchStartsWs l then false
    else nestedLook2 rest

/-- Start-of-structure scan of `split_nested_bullet_table`: skips
continuation-marker lines, accumulates heading lines, and stops at the first
main bullet with nested children, returning (heading lines, suffix from the
start line). -/
def findNestedStart : List String → List String →
    Option (List String × List String)
  | [], _ => none
  | l :: rest, acc =>
    if matchPartMarker (pyStrip l) then findNestedStart rest acc
    else if (matchStarWsWord l || matchStarWsBracket l) && nestedLook2 (rest.take 4) then
      some (acc, l :: rest)
    else findNestedStart rest (acc ++ [l])

/-- Table-name extraction of `split_nested_bullet_table` (only `#`-heading
and bold forms; no plain-line fallback). -/
def nestedNameOf (H : List String) : Option String :=
  match H.getLast? with
  | none => none
  | some last =>
    let ll := pyStrip last
    if pyStartsWith ll "#" then some (pyStrip (lstripHash ll))
    else if pyStartsWith ll "**" && pyEndsWith ll "**" then some (pyStrip (stripStars ll))
    else none

/-- Group extraction of `split_nested_bullet_table`: a main bullet starts a
group, indented bullets and blank lines continue it, any other non-blank
line ends the scan (the remainder of the text is discarded). -/
def collectGroups : List String → List String → List String → List String
  | [], cur, acc => if cur ≠ [] then acc ++ [joinNl cur] else acc
  | l :: rest, cur, acc =>
    if matchPartMarker (pyStrip l) then collectGroups rest cur acc
    else if (matchStarWsWord l || matchStarWsBracket l) && !matchStartsWs l then
      if cur ≠ [] then collectGroups rest [l] (acc ++ [joinNl cur])
      else collectGroups rest [l] acc
    else if cur ≠ [] && (matchIndentBullet1 l || pyStrip l = "") then
      collectGroups rest (cur ++ [l]) acc
    else if cur ≠ [] && pyStrip l ≠ "" then acc ++ [joinNl cur]
    else collectGroups rest cur acc

/-- Chunk assembly of `split_nested_bullet_table`. -/
def mkNestedChunksAux (cfg : SplitterCfg) (heading : String) (ctx : String)
    (total : Nat) : Nat → Nat → List String → List String
  | 0, _, _ => []
  | fuel + 1, i, rem =>
    if rem = [] then []
    else
      let batch := rem.take cfg.groups_per_chunk
      let chunk_end := min (i + cfg.groups_per_chunk) total
      let part_num := i / cfg.groups_per_chunk + 1
      let marker := "\n**[Part " ++ toString part_num ++ ": Groups " ++
        toString (i + 1) ++ "-" ++ toString chunk_end ++ " of " ++
        toString total ++ " total" ++ ctx ++ "]**\n"
      let parts := (if heading ≠ "" then [heading] else []) ++ [marker, joinNl batch]
      joinSep "\n\n" parts ::
        mkNestedChunksAux cfg heading ctx total fuel (i + cfg.groups_per_chunk)
          (rem.drop cfg.groups_per_chunk)

/-- Models `TableListSplitter.split_nested_bullet_table`.  `guide_title` is accepted
but, as in the source, never read. -/
def split_nested_bullet_table (cfg : SplitterCfg) (text : String)
    (guide_title : String := "") : List String :=
  let _ := guide_title
  let lines := pyLines text
  match findNestedStart lines [] with
  | none => [text]
  | some (H, suffix) =>
    let heading_text := pyStrip (joinNl H)
    let name := nestedNameOf H
    let groups := collectGroups suffix [] []
    if groups = [] then [text]
    else
      mkNestedChunksAux cfg heading_text (nameContext name) groups.length
        groups.length 0 groups

/-- Models `DataExtractionPipeline._handle_long_structures` (data_extraction.py):
nested-bullet detection first, then long table, then long list. -/
def handleLong (cfg : SplitterCfg) (guide_title : String) (chunk : String) :
    List String :=
  if detect_nested_bullet_table cfg chunk then
    split_nested_bullet_table cfg chunk guide_title
  else if detect_long_table cfg chunk then
    split_long_table cfg chunk guide_title
  else if detect_long_list cfg chunk then
    split_long_list cfg chunk guide_title
  else [chunk]

/-! ## Heading regexes (chunker.py)

The heading pattern used by `recombine_by_token_limit`,
`_merge_orphaned_headings`, `_split_oversized_chunks` and
`_split_into_blocks` is
`^(#{1,6}\s+.+$|[^\s#].+\n[-=]{3,}\s*$)` (MULTILINE), used with `.match`,
i.e. anchored at position 0.  Note `\s` also matches `'\n'`, so the ATX
alternative can cross a line break (`"##\nfoo"` matches); the translation
below accounts for that. -/

/-- After the `#` run, can `\s+X$` match (`X` one-or-more non-newline chars)?
True iff the suffix starts with whitespace and either contains a
non-whitespace char (the first one then has an all-whitespace prefix) or —
if all whitespace — some char at index ≥ 1 is not `'\n'`. -/
def atxSuffixOk : List Char → Bool
  | [] => false
  | c :: rest =>
    pyWs c && ((c :: rest).any (fun d => !pyWs d) || rest.any (fun d => d ≠ '\n'))

/-- Models `#{lo,hi}\s+.+$` at the start of `l`: the `#` run must have length in
`[lo, hi]` (a longer run leaves a `#` where whitespace is required). -/
def matchAtxRange (lo hi : Nat) (l : List Char) : Bool :=
  let h := (l.takeWhile (· = '#')).length
  lo ≤ h && h ≤ hi && atxSuffixOk (l.drop h)

/-- A dash/equals underline `[-=]{3,}\s*$` (or `-{3,}\s*$` when
`allowEq = false`) at the start of a line: a maximal run of length ≥ 3
followed only by whitespace. -/
def dashUnderline (allowEq : Bool) (line2 : List Char) : Bool :=
  let r := line2.takeWhile (fun c => c = '-' || (allowEq && c = '='))
  3 ≤ r.length && (line2.drop r.length).all pyWs

/-- Models `[^\s#].+\n[-=]{3,}\s*$` at the start of `l`: a setext heading. -/
def setextMatchGeneral (l : List Char) : Bool :=
  match l with
  | [] => false
  | c :: rest =>
    !pyWs c && c ≠ '#' &&
    (let l1 := rest.takeWhile (· ≠ '\n')
     l1 ≠ [] &&
       (match rest.drop l1.length with
        | '\n' :: l2 => dashUnderline true (l2.takeWhile (· ≠ '\n'))
        | _ => false))

/-- Models `.match` of the combined heading pattern of chunker.py. -/
def pyHeadingMatch (s : String) : Bool :=
  matchAtxRange 1 6 s.data || setextMatchGeneral s.data

/-! ## `TextChunker.chunk_by_headings_foundry` (chunker.py lines 98-146)

Pattern `(?:^#{2,4}\s+[^\n]+?\s*$)|(?:^[^\s#][^\n]*?\n-{3,}\s*$)`
(MULTILINE), scanned with `finditer`; only the match start offsets are used
as split points.  `finditer` returns non-overlapping matches, so scanning
resumes after each match end; the end is approximated by the first `'\n'`
after the match content, which differs from the true end only across
whitespace-only lines, where no match can start.

The split chunks are then passed to `self._starts_with_heading`, a method
that is not defined anywhere in the repository, so the call raises
`AttributeError` (modelled as `Except.error ()`) whenever at least one
heading was found. -/

/-- Models `[^\s#][^\n]*?\n-{3,}\s*$` at the start of `l`. -/
def setextMatchFoundry (l : List Char) : Bool :=
  match l with
  | [] => false
  | c :: rest =>
    !pyWs c && c ≠ '#' &&
    (let l1 := rest.takeWhile (· ≠ '\n')
     match rest.drop l1.length with
     | '\n' :: l2 => dashUnderline false (l2.takeWhile (· ≠ '\n'))
     | _ => false)

/-- Index of the first `'\n'` at position ≥ `i` (or `data.length`). -/
def idxOfNlFrom (data : List Char) (i : Nat) : Nat :=
  i + ((data.drop i).takeWhile (· ≠ '\n')).length

/-- Resume position after an ATX match starting at `p` with `#`-run `run`. -/
def atxEndF (data : List Char) (p run : Nat) : Nat :=
  let t := p + run + ((data.drop (p + run)).takeWhile pyWs).length
  idxOfNlFrom data (t + 1)

/-- Resume position after a setext match starting at `p`: the end of the
underline line. -/
def setextEndF (data : List Char) (p : Nat) : Nat :=
  idxOfNlFrom data (idxOfNlFrom data p + 1)

/-- All line-start offsets of `data` (position 0 and after each `'\n'`). -/
def lineStartsAux : List Char → Nat → List Nat
  | [], _ => []
  | c :: rest, i =>
    if c = '\n' then (i + 1) :: lineStartsAux rest (i + 1)
    else lineStartsAux rest (i + 1)

/-- Line starts of a text. -/
def lineStarts (data : List Char) : List Nat := 0 :: lineStartsAux data 0

/-- Models `finditer` over the foundry pattern: match start offsets, with
non-overlap resumption. -/
def foundryScan (data : List Char) : List Nat → Nat → List Nat
  | [], _ => []
  | p :: ps, resume =>
    if p < resume then foundryScan data ps resume
    else
      let suf := data.drop p
      let run := (suf.takeWhile (· = '#')).length
      if 2 ≤ run && run ≤ 4 && atxSuffixOk (suf.drop run) then
        p :: foundryScan data ps (atxEndF data p run)
      else if setextMatchFoundry suf then
        p :: foundryScan data ps (setextEndF data p)
      else foundryScan data ps resume

/-- Deduplicate adjacent equal elements of a sorted list
(`sorted(set(...))` on an already-sorted input). -/
def dedupAdj : List Nat → List Nat
  | [] => []
  | [a] => [a]
  | a :: b :: r => if a = b then dedupAdj (b :: r) else a :: dedupAdj (b :: r)

/-- Consecutive pairs of a list. -/
def pairsOf : List Nat → List (Nat × Nat)
  | a :: b :: r => (a, b) :: pairsOf (b :: r)
  | _ => []

/-- Models `TextChunker.chunk_by_headings_foundry`.  `Except.error ()` models the
`AttributeError` raised by the call to the undefined method
`self._starts_with_heading` on line 140 of chunker.py. -/
def chunk_by_headings_foundry (text : String) : Except Unit (List String) :=
  let data := text.data
  let starts := foundryScan data (lineStarts data) 0
  if starts = [] then
    Except.ok (if pyStrip text ≠ "" then [pyStrip text] else [])
  else
    let pts := dedupAdj (0 :: (starts ++ [data.length]))
    let chunks := (pairsOf pts).filterMap fun ab =>
      let c := pyStrip (String.mk ((data.drop ab.1).take (ab.2 - ab.1)))
      if c ≠ "" then some c else none
    if chunks ≠ [] then Except.error () else Except.ok []

/-! ## `TextChunker.recombine_by_token_limit` and the oversized-section
splitter (chunker.py lines 256-561)

`count_tokens` never raises (its own `try/except` returns 0), so the
`except Exception` fallback inside the merge check (lines 307-309) is
unreachable and not modelled. -/

/-- Loop body of `recombine_by_token_limit`: state is
`(recombined, current_section)`. -/
def recombineStep (tok : Tokenizer) (M : Nat) (st : List String × String)
    (chunk0 : String) : List String × String :=
  let (out, cur) := st
  let chunk := pyStrip chunk0
  if chunk = "" then (out, cur)
  else if pyHeadingMatch chunk && cur ≠ "" then (out ++ [pyStrip cur], chunk)
  else if cur ≠ "" then
    if tok.isSome then
      let combined := pyStrip (cur ++ "\n\n" ++ chunk)
      if count_tokens tok combined ≤ M then (out, combined)
      else (out ++ [pyStrip cur], chunk)
    else (out, cur ++ "\n\n" ++ chunk)
  else (out, chunk)

/-- The fold of `recombine_by_token_limit` plus the final flush. -/
def recombineCore (tok : Tokenizer) (M : Nat) (chunks : List String) :
    List String :=
  let (out, cur) := chunks.foldl (recombineStep tok M) ([], "")
  out ++ (if cur ≠ "" then [pyStrip cur] else [])

/-- Models `TextChunker._merge_orphaned_headings`. -/
def mergeOrphans : List String → List String
  | [] => []
  | c :: rest =>
    if pyWordCount c < 15 && pyHeadingMatch c then
      match rest with
      | nxt :: rest2 =>
        pyStrip (pyRStrip c ++ "\n\n" ++ pyLStrip nxt) :: mergeOrphans rest2
      | [] => c :: mergeOrphans []
    else c :: mergeOrphans rest

/-- Models `TextChunker._extract_heading` scan: first ATX line (stripped starts
with `#`) or setext pair (line whose successor strips to `[-=]{3,}\s*$`). -/
def extractHeadingAux : List String → Nat → Option (String × String × Nat)
  | [], _ => none
  | l :: rest, i =>
    let s := pyStrip l
    if pyStartsWith s "#" then some (l, s, i + 1)
    else
      match rest with
      | nxt :: _ =>
        if dashUnderline true (pyStrip nxt).data then
          some (l ++ "\n" ++ nxt, s, i + 2)
        else extractHeadingAux rest (i + 1)
      | [] => none

/-- Models `TextChunker._extract_heading`, with the `"## Content Section"`
placeholder when no heading is found. -/
def extractHeading (lines : List String) : String × String × Nat :=
  (extractHeadingAux lines 0).getD ("## Content Section", "## Content Section", 0)

/-- Loop body of `TextChunker._split_into_blocks`: state is
`(blocks, current_block)`. -/
def splitBlocksStep (st : List String × List String) (line : String) :
    List String × List String :=
  let (blocks, cur) := st
  let stripped := pyStrip line
  let lastNonBlank :=
    match cur.getLast? with
    | some last => pyStrip last ≠ ""
    | none => false
  let shouldSplit :=
    pyHeadingMatch stripped ||
    (stripped = "" && cur ≠ [] && lastNonBlank) ||
    (pyStartsWith stripped "*" && !pyStartsWith line " ")
  if shouldSplit && cur ≠ [] then (blocks ++ [joinNl cur], [line])
  else (blocks, cur ++ [line])

/-- Models `TextChunker._split_into_blocks`. -/
def splitBlocks (lines : List String) : List String :=
  let (blocks, cur) := lines.foldl splitBlocksStep ([], [])
  blocks ++ (if cur ≠ [] then [joinNl cur] else [])

/-- Models `re.split(r'(?<=[.!?])\s+', block)`: sentence-terminator characters. -/
def sentPunct (c : Char) : Bool := c = '.' || c = '!' || c = '?'

/-- Single pass of the sentence split: `piece` is the pending piece; the
flag is true while consuming the whitespace run of a split point. -/
def sentGo : List Char → List Char → Bool → List (List Char)
  | [], piece, _ => [piece]
  | c :: rest, piece, false =>
    if pyWs c && (match piece.getLast? with | some d => sentPunct d | none => false) then
      piece :: sentGo rest [] true
    else sentGo rest (piece ++ [c]) false
  | c :: rest, _, true =>
    if pyWs c then sentGo rest [] true
    else sentGo rest [c] false

/-- Models `re.split(r'(?<=[.!?])\s+', block)`. -/
def sentencesOf (s : String) : List String :=
  (sentGo s.data [] false).map String.mk

/-- Inner sentence-packing loop body of `_create_sub_chunks`: state is
`(sub_chunks, sentence_group, sentence_tokens)`. -/
def sentStep (count : String → Nat) (eff : Int)
    (st : List String × List String × Nat) (sent : String) :
    List String × List String × Nat :=
  let (subs, group, gtok) := st
  let stt := count sent
  if (gtok + stt : Int) > eff && group ≠ [] then
    (subs ++ [joinNl group], [sent], stt)
  else (subs, group ++ [sent], gtok + stt)

/-- Packing state of `_create_sub_chunks`:
`(sub_chunks, current_sub, current_sub_tokens)`. -/
structure PackSt where
  subs : List String
  cur : List String
  curTok : Nat
deriving DecidableEq

/-- Per-block loop body of `_create_sub_chunks`. -/
def packStep (count : String → Nat) (eff : Int) (st : PackSt) (b : String) :
    PackSt :=
  let bt := count b
  if (bt : Int) > eff then
    let subs1 := if st.cur ≠ [] then st.subs ++ [joinSep "\n\n" st.cur] else st.subs
    let (subs2, group, gtok) := (sentencesOf b).foldl (sentStep count eff) (subs1, [], 0)
    if group ≠ [] then ⟨subs2, [joinNl group], gtok⟩ else ⟨subs2, [], 0⟩
  else if (st.curTok + bt : Int) > eff then
    ⟨st.subs ++ (if st.cur ≠ [] then [joinSep "\n\n" st.cur] else []), [b], bt⟩
  else ⟨st.subs, st.cur ++ [b], st.curTok + bt⟩

/-- The block-packing loop of `_create_sub_chunks` (everything before
`_format_sub_chunks`), producing the raw `sub_chunks` list. -/
def packBlocks (count : String → Nat) (eff : Int) (blocks : List String) :
    List String :=
  let st := blocks.foldl (packStep count eff) ⟨[], [], 0⟩
  st.subs ++ (if st.cur ≠ [] then [joinSep "\n\n" st.cur] else [])

/-- Models `TextChunker._format_sub_chunks` body for one part. -/
def formatOne (heading_line : String) (total : Nat) (pn : Nat) (s : String) :
    String :=
  if pn = 1 then
    heading_line ++ "\n\n" ++ s ++
      (if total > 1 then "\n\n**[Continued in Part " ++ toString (pn + 1) ++ "]**" else "")
  else
    heading_line ++ "\n\n**[Part " ++ toString pn ++ " of " ++ toString total ++
      " - Continued]**\n\n" ++ s

/-- Indexed map for `_format_sub_chunks`. -/
def formatSubChunksAux (heading_line : String) (total : Nat) :
    Nat → List String → List String
  | _, [] => []
  | pn, s :: rest =>
    formatOne heading_line total pn s :: formatSubChunksAux heading_line total (pn + 1) rest

/-- Models `TextChunker._format_sub_chunks`. -/
def formatSubChunks (sub_chunks : List String) (heading_line : String) :
    List String :=
  formatSubChunksAux heading_line sub_chunks.length 1 sub_chunks

/-- Models `TextChunker._create_sub_chunks`: effective limit is
`max_tokens - (count(main_heading) + 100)` (may be negative, hence `Int`). -/
def createSubChunks (count : String → Nat) (M : Nat) (blocks : List String)
    (heading_line main_heading : String) : List String :=
  let eff : Int := (M : Int) - ((count main_heading : Int) + 100)
  formatSubChunks (packBlocks count eff blocks) heading_line

/-- Models `TextChunker._split_oversized_chunks` on one chunk. -/
def splitOversizedOne (tok : Tokenizer) (M : Nat) (chunk : String) :
    List String :=
  if count_tokens tok chunk ≤ M then [chunk]
  else
    let lines := pyLines chunk
    let (heading_line, main_heading, cs) := extractHeading lines
    let blocks := splitBlocks (lines.drop cs)
    createSubChunks (count_tokens tok) M blocks heading_line main_heading

/-- Models `TextChunker._split_oversized_chunks` (no-op when the tokenizer is
unavailable). -/
def splitOversized (tok : Tokenizer) (M : Nat) (chunks : List String) :
    List String :=
  match tok with
  | none => chunks
  | some _ => (chunks.map (splitOversizedOne tok M)).flatten

/-- Models `TextChunker.recombine_by_token_limit`. -/
def recombine_by_token_limit (tok : Tokenizer) (M : Nat)
    (chunks : List String) : List String :=
  if chunks = [] then []
  else splitOversized tok M (mergeOrphans (recombineCore tok M chunks))

/-- Steps 4-5 of `DataExtractionPipeline.process_url` for a chunked domain:
recombination followed by `_handle_long_structures` on each final chunk. -/
def pipelineChunks (tok : Tokenizer) (M : Nat) (cfg : SplitterCfg)
    (guide_title : String) (chunks : List String) : List String :=
  ((recombine_by_token_limit tok M chunks).map (handleLong cfg guide_title)).flatten

/-! ## Idempotence of `strip` -/

/-- Applying `dropWhile` twice equals applying it once. -/
theorem dropWhile_idem {α : Type} (p : α → Bool) (l : List α) :
    (l.dropWhile p).dropWhile p = l.dropWhile p := by
  induction l with
  | nil => rfl
  | cons c t ih =>
    by_cases h : p c
    · simp [List.dropWhile_cons, h, ih]
    · simp [List.dropWhile_cons, h]

/-- The result of `dropRightWhile` is a prefix of the input. -/
theorem dropRightWhile_front (p : Char → Bool) (l : List Char) :
    dropRightWhile p l <+: l := by
  unfold dropRightWhile
  have h := List.dropWhile_suffix (l := l.reverse) p
  have := List.reverse_prefix.mpr h
  simpa using this

/-- Applying `dropRightWhile` twice equals applying it once. -/
theorem dropRightWhile_idem (p : Char → Bool) (l : List Char) :
    dropRightWhile p (dropRightWhile p l) = dropRightWhile p l := by
  unfold dropRightWhile
  rw [List.reverse_reverse, dropWhile_idem]

/-- A prefix of a list with no leading `p`-run also has none. -/
theorem dropWhile_eq_self_of_front (p : Char → Bool) {l l' : List Char}
    (hpre : l' <+: l) (h : l.dropWhile p = l) : l'.dropWhile p = l' := by
  cases l' with
  | nil => rfl
  | cons a t =>
    obtain ⟨s, hs⟩ := hpre
    have hpa : p a = false := by
      by_cases hp : p a
      · exfalso
        rw [← hs] at h
        rw [List.cons_append, List.dropWhile_cons, if_pos hp] at h
        have hlen := congrArg List.length h
        have hle := (List.dropWhile_suffix (l := t ++ s) p).length_le
        simp at hlen hle
        omega
      · simpa using hp
    simp [List.dropWhile_cons, hpa]

/-- Stripping is idempotent: stripped text re-strips to itself. -/
theorem stripCh_idem (l : List Char) : stripCh (stripCh l) = stripCh l := by
  unfold stripCh
  have h1 : (dropRightWhile pyWs (l.dropWhile pyWs)).dropWhile pyWs
      = dropRightWhile pyWs (l.dropWhile pyWs) :=
    dropWhile_eq_self_of_front pyWs (dropRightWhile_front pyWs _)
      (dropWhile_idem pyWs l)
  rw [h1, dropRightWhile_idem]

/-- Python strip is idempotent. -/
theorem pyStrip_idem (s : String) : pyStrip (pyStrip s) = pyStrip s := by
  unfold pyStrip
  exact congrArg String.mk (stripCh_idem s.data)

/-! ## General fold-invariant helper -/

/-- Invariants are preserved along `List.foldl`. -/
theorem foldlInv {α β : Type} {P : α → Prop} (f : α → β → α) (l : List β)
    (init : α) (h0 : P init)
    (hstep : ∀ st x, x ∈ l → P st → P (f st x)) :
    P (l.foldl f init) := by
  induction l generalizing init with
  | nil => exact h0
  | cons x xs ih =>
    exact ih (f init x) (hstep init x (by simp) h0)
      (fun st y hy => hstep st y (by simp [hy]))

/-! ## Detector lemmas used by the threshold-boundary claim -/

/-- With no indented-bullet line in the (marker-stripped) text, the
nested-bullet-table scan counts no groups and no nested items. -/
theorem nestedScan_zero (lines : List String)
    (h : ∀ l ∈ lines, matchIndentBullet l = false) :
    (lines.foldl nestedScanStep (0, 0, false, false)).1 = 0 ∧
    (lines.foldl nestedScanStep (0, 0, false, false)).2.1 = 0 ∧
    (lines.foldl nestedScanStep (0, 0, false, false)).2.2.2 = false := by
  have := foldlInv (P := fun st : Nat × Nat × Bool × Bool =>
      st.1 = 0 ∧ st.2.1 = 0 ∧ st.2.2.2 = false)
    nestedScanStep lines (0, 0, false, false) ⟨rfl, rfl, rfl⟩ ?_
  · exact this
  · rintro ⟨gc, total, inG, hasN⟩ x hx ⟨h1, h2, h3⟩
    unfold nestedScanStep
    simp only at h1 h2 h3
    subst h1; subst h2; subst h3
    by_cases hm : ((matchStarWsWord x || matchStarWsBracket x) && !matchStartsWs x) = true
    · simp [hm]
    · simp [hm, h x hx]

/-- With no indented-bullet line after marker removal and positive
thresholds, the nested-bullet-table detector does not fire. -/
theorem detect_nested_false (cfg : SplitterCfg) (t : String)
    (h : ∀ l ∈ pyLines (subMarkers t), matchIndentBullet l = false)
    (hg : 0 < cfg.min_nested_groups) (hi : 0 < cfg.min_nested_items) :
    detect_nested_bullet_table cfg t = false := by
  unfold detect_nested_bullet_table
  obtain ⟨h1, h2, h3⟩ := nestedScan_zero (pyLines (subMarkers t)) h
  simp only [h1, h2, h3, Bool.false_eq_true, and_false, if_false]
  simp [Nat.not_le.mpr hg, Nat.not_le.mpr hi]

/-- With no line whose stripped form starts with `|` and a positive
threshold, the long-table detector does not fire. -/
theorem detect_table_false (cfg : SplitterCfg) (t : String)
    (h : ∀ l ∈ pyLines t, pyStartsWith (pyStrip l) "|" = false)
    (hm : 0 < cfg.min_long_table) :
    detect_long_table cfg t = false := by
  unfold detect_long_table tableRowCount
  have hf : (pyLines t).filter (fun l =>
      pyStartsWith (pyStrip l) "|" && !matchTableSep (pyStrip l)) = [] := by
    apply List.filter_eq_nil_iff.mpr
    intro l hl
    simp [h l hl]
  simp [hf, Nat.not_le.mpr hm]

/-- With no indented-bullet line in a line list, `nestedLook` is false. -/
theorem nestedLook_false (ls : List String)
    (h : ∀ l ∈ ls, matchIndentBullet l = false) :
    nestedLook ls = false := by
  induction ls with
  | nil => rfl
  | cons l rest ih =>
    have h0 : matchIndentBullet l = false := h l (by simp)
    have hrest : nestedLook rest = false := ih (fun x hx => h x (by simp [hx]))
    unfold nestedLook
    rw [h0]
    rw [if_neg (by simp)]
    by_cases hc : (decide (pyStrip l ≠ "") && !matchStarWs l) = true
    · rw [if_pos hc]
    · rw [if_neg hc]; exact hrest

/-- With no indented-bullet line, the long-list detector's nested-structure
pre-scan is false. -/
theorem hasNested_false (lines : List String)
    (h : ∀ l ∈ lines, matchIndentBullet l = false) :
    hasNestedStructure lines = false := by
  induction lines with
  | nil => rfl
  | cons l rest ih =>
    have hrest : hasNestedStructure rest = false :=
      ih (fun x hx => h x (by simp [hx]))
    unfold hasNestedStructure
    have hlook : nestedLook (rest.take 4) = false :=
      nestedLook_false _ (fun x hx => h x (by simp [List.mem_of_mem_take hx]))
    by_cases hc : (matchStarWs l && !matchStartsWs l) = true
    · rw [if_pos hc, hlook, if_neg (by simp)]; exact hrest
    · rw [if_neg hc]; exact hrest

/-- Fewer top-level items than the threshold: the long-list detector does
not fire. -/
theorem detect_list_false_of_lt (cfg : SplitterCfg) (t : String)
    (h : mainItemCount (pyLines t) < cfg.min_long_list) :
    detect_long_list cfg t = false := by
  unfold detect_long_list
  by_cases hn : hasNestedStructure (pyLines t)
  · simp [hn]
  · simp [hn, Nat.not_le.mpr h]

/-- At least the threshold of top-level items and no nested structure: the
long-list detector fires. -/
theorem detect_list_true (cfg : SplitterCfg) (t : String)
    (hind : ∀ l ∈ pyLines t, matchIndentBullet l = false)
    (h : cfg.min_long_list ≤ mainItemCount (pyLines t)) :
    detect_long_list cfg t = true := by
  unfold detect_long_list
  simp [hasNested_false _ hind, h]

/-! ## Counting lemmas for `split_long_list` -/

/-- The top-level item count distributes over cons. -/
theorem mainItemCount_cons (l : String) (rest : List String) :
    mainItemCount (l :: rest) =
      (if isItemLine l then 1 else 0) + mainItemCount rest := by
  unfold mainItemCount
  by_cases h : isItemLine l
  · simp [List.filter_cons, h]
    omega
  · simp [List.filter_cons, h]

/-- The item collector produces one item per item-matching line (plus the
pending current item). -/
theorem collectItems_length (ls : List String) : ∀ cur acc : List String,
    (collectItems ls cur acc).length =
      acc.length + mainItemCount ls + (if cur = [] then 0 else 1) := by
  induction ls with
  | nil =>
    intro cur acc
    by_cases h : cur = [] <;>
      simp [collectItems, h, mainItemCount]
  | cons l rest ih =>
    intro cur acc
    rw [mainItemCount_cons]
    by_cases hi : isItemLine l
    · by_cases hc : cur = []
      · have hstep : collectItems (l :: rest) cur acc = collectItems rest [l] acc := by
          simp only [collectItems]
          rw [if_pos hi, if_neg (by simp [hc])]
        rw [hstep, ih]
        simp [hi, hc]
        omega
      · have hstep : collectItems (l :: rest) cur acc
            = collectItems rest [l] (acc ++ [joinNl cur]) := by
          simp only [collectItems]
          rw [if_pos hi, if_pos hc]
        rw [hstep, ih]
        simp [hi, hc]
        omega
    · have hi' : isItemLine l = false := by simpa using hi
      by_cases hc : cur = []
      · have hstep : collectItems (l :: rest) cur acc = collectItems rest cur acc := by
          simp only [collectItems]
          rw [if_neg (by simp [hi']), if_neg (by simp [hc])]
        rw [hstep, ih]
        simp [hi', hc]
      · have hstep : collectItems (l :: rest) cur acc
            = collectItems rest (cur ++ [l]) acc := by
          simp only [collectItems]
          rw [if_neg (by simp [hi']), if_pos hc]
        rw [hstep, ih]
        simp [hi', hc]

/-- Number of chunks produced by the `range(0, n, items_per_chunk)` loop:
`ceil(n / items_per_chunk)`. -/
theorem mkListChunksAux_length (cfg : SplitterCfg) (h : String) (total : Nat)
    (hipc : 0 < cfg.items_per_chunk) :
    ∀ fuel i rem, rem.length ≤ fuel →
      (mkListChunksAux cfg h total fuel i rem).length =
        if rem = [] then 0 else (rem.length - 1) / cfg.items_per_chunk + 1 := by
  intro fuel
  induction fuel with
  | zero =>
    intro i rem hle
    have hr : rem = [] := List.length_eq_zero.mp (Nat.le_zero.mp hle)
    simp [hr, mkListChunksAux]
  | succ n ih =>
    intro i rem hle
    by_cases hr : rem = []
    · simp [hr, mkListChunksAux]
    · have hstep : mkListChunksAux cfg h total (n + 1) i rem =
          joinSep "\n\n" ((if h ≠ "" then [h] else []) ++
            ["\n**[Part " ++ toString (i / cfg.items_per_chunk + 1) ++ ": Items " ++
              toString (i + 1) ++ "-" ++ toString (min (i + cfg.items_per_chunk) total) ++
              " of " ++ toString total ++ " total]**\n",
              joinNl (rem.take cfg.items_per_chunk)]) ::
            mkListChunksAux cfg h total n (i + cfg.items_per_chunk)
              (rem.drop cfg.items_per_chunk) := by
        simp only [mkListChunksAux]
        rw [if_neg hr]
      rw [hstep]
      have hlen1 : 1 ≤ rem.length := by
        rcases rem with _ | ⟨a, b⟩
        · exact absurd rfl hr
        · simp
      rw [List.length_cons, ih (i + cfg.items_per_chunk) (rem.drop cfg.items_per_chunk)
        (by simp; omega)]
      by_cases hd : rem.drop cfg.items_per_chunk = []
      · have hle2 : rem.length ≤ cfg.items_per_chunk := by
          have := List.drop_eq_nil_iff.mp hd
          omega
        rw [if_pos hd, if_neg hr]
        have : (rem.length - 1) / cfg.items_per_chunk = 0 :=
          Nat.div_eq_of_lt (by omega)
        omega
      · have hgt : cfg.items_per_chunk < rem.length := by
          by_contra hcon
          exact hd (List.drop_eq_nil_iff.mpr (by omega))
        rw [if_neg hd, if_neg hr]
        have hdl : (rem.drop cfg.items_per_chunk).length =
            rem.length - cfg.items_per_chunk := by simp
        rw [hdl]
        have harith : rem.length - 1 = (rem.length - cfg.items_per_chunk - 1) +
            cfg.items_per_chunk := by omega
        rw [harith, Nat.add_div_right _ hipc]

/-- Dropping the length of `takeWhile` is `dropWhile`. -/
theorem drop_length_takeWhile {α : Type} (p : α → Bool) (l : List α) :
    l.drop (l.takeWhile p).length = l.dropWhile p := by
  induction l with
  | nil => rfl
  | cons c t ih =>
    by_cases h : p c
    · simp [List.takeWhile_cons, List.dropWhile_cons, h, ih]
    · simp [List.takeWhile_cons, List.dropWhile_cons, h]

/-- The item extraction finds exactly the top-level item lines of the text. -/
theorem listItemsOf_length (t : String) :
    (listItemsOf t).length = mainItemCount (pyLines t) := by
  unfold listItemsOf listHeadingLines
  set lines := pyLines t with hlines
  have hdropItems : mainItemCount
      (lines.drop (lines.takeWhile (fun l => !isItemLine l)).length) =
      mainItemCount lines := by
    rw [drop_length_takeWhile]
    have hsplit : lines.takeWhile (fun l => !isItemLine l) ++
        lines.dropWhile (fun l => !isItemLine l) = lines :=
      List.takeWhile_append_dropWhile _ _
    have hHzero : mainItemCount (lines.takeWhile (fun l => !isItemLine l)) = 0 := by
      unfold mainItemCount
      rw [List.filter_eq_nil_iff.mpr ?_]
      · rfl
      · intro a ha
        have := List.mem_takeWhile_imp ha
        simpa using this
    conv_rhs => rw [← hsplit]
    unfold mainItemCount at hHzero ⊢
    rw [List.filter_append, List.length_append]
    omega
  rw [collectItems_length]
  simp [hdropItems]

/-- With at least one top-level item, the heading prefix is proper. -/
theorem listHeadingLines_ne (t : String)
    (hpos : 0 < mainItemCount (pyLines t)) :
    (listHeadingLines t).length ≠ (pyLines t).length := by
  unfold listHeadingLines
  intro hlen
  have hHeq : (pyLines t).takeWhile (fun l => !isItemLine l) = pyLines t :=
    (List.takeWhile_prefix (l := pyLines t) (fun l => !isItemLine l)).eq_of_length hlen
  have hall : ∀ l ∈ pyLines t, isItemLine l = false := by
    intro l hl
    have hl' : l ∈ (pyLines t).takeWhile (fun l => !isItemLine l) := by
      rw [hHeq]; exact hl
    have := List.mem_takeWhile_imp hl'
    simpa using this
  have : mainItemCount (pyLines t) = 0 := by
    unfold mainItemCount
    rw [List.filter_eq_nil_iff.mpr (by intro a ha; simp [hall a ha])]
    rfl
  omega

/-- With at least one top-level item, the item list is non-empty. -/
theorem listItemsOf_ne_nil (t : String)
    (hpos : 0 < mainItemCount (pyLines t)) : listItemsOf t ≠ [] := by
  intro hcon
  have := listItemsOf_length t
  rw [hcon] at this
  simp at this
  omega

/-- On a text with at least one top-level item, `split_long_list` produces
`ceil(item-count / items_per_chunk)` chunks. -/
theorem split_long_list_length (cfg : SplitterCfg) (t gt : String)
    (hipc : 0 < cfg.items_per_chunk)
    (hpos : 0 < mainItemCount (pyLines t)) :
    (split_long_list cfg t gt).length =
      (mainItemCount (pyLines t) - 1) / cfg.items_per_chunk + 1 := by
  unfold split_long_list
  rw [if_neg (listHeadingLines_ne t hpos), if_neg (listItemsOf_ne_nil t hpos)]
  rw [mkListChunksAux_length cfg _ _ hipc _ 0 _ (le_refl _),
    if_neg (listItemsOf_ne_nil t hpos), listItemsOf_length]

/-! ## Non-whitespace content preservation (C1 amended) -/

/-- Dropping leading whitespace does not change the non-whitespace content. -/
theorem nonWs_dropWhile (l : List Char) : nonWs (l.dropWhile pyWs) = nonWs l := by
  induction l with
  | nil => rfl
  | cons c t ih =>
    by_cases h : pyWs c
    · rw [List.dropWhile_cons, if_pos h,
        show nonWs (c :: t) = nonWs t from by simp [nonWs, List.filter_cons, h]]
      exact ih
    · rw [List.dropWhile_cons, if_neg h]

/-- Stripping does not change the non-whitespace content. -/
theorem nonWs_stripCh (l : List Char) : nonWs (stripCh l) = nonWs l := by
  unfold stripCh dropRightWhile
  rw [show nonWs ((l.dropWhile pyWs).reverse.dropWhile pyWs).reverse
      = (nonWs ((l.dropWhile pyWs).reverse.dropWhile pyWs)).reverse from
    List.filter_reverse _ _]
  rw [nonWs_dropWhile]
  rw [show nonWs (l.dropWhile pyWs).reverse = (nonWs (l.dropWhile pyWs)).reverse from
    List.filter_reverse _ _]
  rw [List.reverse_reverse, nonWs_dropWhile]

/-- Non-whitespace filtering distributes over append. -/
theorem nonWs_append (a b : List Char) : nonWs (a ++ b) = nonWs a ++ nonWs b :=
  List.filter_append a b

/-- The split function never returns the empty list. -/
theorem splitCh_ne_nil (sep : Char) (l : List Char) : splitCh sep l ≠ [] := by
  cases l with
  | nil => simp [splitCh]
  | cons c t =>
    simp only [splitCh]
    by_cases h : c = sep
    · simp [h]
    · rw [if_neg h]
      rcases hg : splitCh sep t with _ | ⟨g, gs⟩ <;> simp

/-- Rejoining a split with the separator restores the original list. -/
theorem intercalateCh_splitCh (sep : Char) (l : List Char) :
    intercalateCh [sep] (splitCh sep l) = l := by
  induction l with
  | nil => rfl
  | cons c t ih =>
    by_cases h : c = sep
    · subst h
      rcases hg : splitCh c t with _ | ⟨g, gs⟩
      · exact absurd hg (splitCh_ne_nil c t)
      · rw [show splitCh c (c :: t) = [] :: splitCh c t from by
          simp [splitCh]]
        rw [hg] at ih ⊢
        cases gs with
        | nil => simp [intercalateCh] at ih ⊢; simp [ih]
        | cons g2 gs2 => simp [intercalateCh] at ih ⊢; simp [ih]
    · rcases hg : splitCh sep t with _ | ⟨g, gs⟩
      · exact absurd hg (splitCh_ne_nil sep t)
      · rw [show splitCh sep (c :: t) = (c :: g) :: gs from by
          simp only [splitCh]; rw [if_neg h, hg]]
        rw [hg] at ih
        cases gs with
        | nil => simp [intercalateCh] at ih ⊢; simp [ih]
        | cons g2 gs2 => simp [intercalateCh] at ih ⊢; simp [ih]

/-- For an all-whitespace separator, `nonWs` of an intercalation is the
concatenation of the parts' `nonWs`. -/
theorem nonWs_intercalateCh (sep : List Char) (hsep : nonWs sep = [])
    (gs : List (List Char)) :
    nonWs (intercalateCh sep gs) = (gs.map nonWs).flatten := by
  induction gs with
  | nil => rfl
  | cons g gs ih =>
    cases gs with
    | nil => simp [intercalateCh]
    | cons g2 gs2 =>
      rw [show intercalateCh sep (g :: g2 :: gs2)
          = g ++ sep ++ intercalateCh sep (g2 :: gs2) from rfl]
      rw [nonWs_append, nonWs_append, hsep, List.append_nil, ih]
      simp

/-- The non-whitespace characters of a line list, per line. -/
def lineNonWs (s : String) : List Char := nonWs s.data

/-- The `nonWs` of a newline-join is the concatenation of the lines' `nonWs`. -/
theorem nonWs_joinNl (ls : List String) :
    nonWs (joinNl ls).data = (ls.map lineNonWs).flatten := by
  unfold joinNl joinSep
  rw [show (String.mk (intercalateCh "\n".data (ls.map String.data))).data
      = intercalateCh "\n".data (ls.map String.data) from rfl]
  rw [nonWs_intercalateCh _ (by rfl)]
  rw [List.map_map]
  rfl

/-- The non-whitespace content of a text is that of its lines. -/
theorem nonWs_eq_lines (t : String) :
    nonWs t.data = ((pyLines t).map lineNonWs).flatten := by
  conv_lhs => rw [← intercalateCh_splitCh '\n' t.data]
  rw [show ('\n' : Char) :: [] = "\n".data from rfl] at *
  rw [nonWs_intercalateCh _ (by rfl)]
  unfold pyLines
  rw [List.map_map]
  rfl

/-- The head of a `dropWhile` fails the predicate. -/
theorem dropWhile_head_false {α : Type} (p : α → Bool) (l : List α) (a : α)
    (rest : List α) (h : l.dropWhile p = a :: rest) : p a = false := by
  induction l with
  | nil => simp [List.dropWhile] at h
  | cons c t ih =>
    rw [List.dropWhile_cons] at h
    by_cases hc : p c
    · rw [if_pos hc] at h; exact ih h
    · rw [if_neg hc] at h
      obtain ⟨h1, _⟩ := List.cons.inj h
      subst h1; simpa using hc

/-- With a pending item, the item collector preserves the non-whitespace
content, in order. -/
theorem collectItems_nonWs (ls : List String) : ∀ cur acc : List String,
    cur ≠ [] →
    ((collectItems ls cur acc).map lineNonWs).flatten =
      (acc.map lineNonWs).flatten ++ (cur.map lineNonWs).flatten ++
        (ls.map lineNonWs).flatten := by
  induction ls with
  | nil =>
    intro cur acc hcur
    have hstep : collectItems [] cur acc = acc ++ [joinNl cur] := by
      simp only [collectItems]
      rw [if_pos hcur]
    rw [hstep]
    simp [lineNonWs, nonWs_joinNl]
  | cons l rest ih =>
    intro cur acc hcur
    have hjoin : lineNonWs (joinNl cur) = (cur.map lineNonWs).flatten := by
      unfold lineNonWs
      exact nonWs_joinNl cur
    by_cases hi : isItemLine l
    · have hstep : collectItems (l :: rest) cur acc
          = collectItems rest [l] (acc ++ [joinNl cur]) := by
        simp only [collectItems]
        rw [if_pos hi, if_pos hcur]
      rw [hstep, ih [l] _ (by simp)]
      simp [hjoin]
    · have hi' : isItemLine l = false := by simpa using hi
      have hstep : collectItems (l :: rest) cur acc
          = collectItems rest (cur ++ [l]) acc := by
        simp only [collectItems]
        rw [if_neg (by simp [hi']), if_pos hcur]
      rw [hstep, ih (cur ++ [l]) _ (by simp)]
      simp

/-- The extracted items carry exactly the non-whitespace content of the
lines from the first item on. -/
theorem listItemsOf_nonWs (t : String) :
    ((listItemsOf t).map lineNonWs).flatten =
      (((pyLines t).drop (listHeadingLines t).length).map lineNonWs).flatten := by
  unfold listItemsOf
  rcases hd : (pyLines t).drop (listHeadingLines t).length with _ | ⟨l, rest⟩
  · simp [collectItems]
  · have hdw : (pyLines t).drop (listHeadingLines t).length
        = (pyLines t).dropWhile (fun l => !isItemLine l) := by
      unfold listHeadingLines
      exact drop_length_takeWhile _ _
    have hitem : isItemLine l = true := by
      have := dropWhile_head_false (fun l => !isItemLine l) (pyLines t) l rest
        (by rw [← hdw, hd])
      simpa using this
    have hstep : collectItems (l :: rest) [] [] = collectItems rest [l] [] := by
      simp only [collectItems]
      rw [if_pos hitem, if_neg (by simp)]
    rw [hstep, collectItems_nonWs rest [l] [] (by simp)]
    simp

/-- The dispatcher `_handle_long_structures` passes a chunk through untouched when no
detector fires. -/
theorem handleLong_passthrough (cfg : SplitterCfg) (gt t : String)
    (h1 : detect_nested_bullet_table cfg t = false)
    (h2 : detect_long_table cfg t = false)
    (h3 : detect_long_list cfg t = false) :
    handleLong cfg gt t = [t] := by
  unfold handleLong
  rw [h1, if_neg (by simp), h2, if_neg (by simp), h3, if_neg (by simp)]

/-- The dispatcher `_handle_long_structures` sends a chunk to the long-list splitter when only
the long-list detector fires. -/
theorem handleLong_list (cfg : SplitterCfg) (gt t : String)
    (h1 : detect_nested_bullet_table cfg t = false)
    (h2 : detect_long_table cfg t = false)
    (h3 : detect_long_list cfg t = true) :
    handleLong cfg gt t = split_long_list cfg t gt := by
  unfold handleLong
  rw [h1, if_neg (by simp), h2, if_neg (by simp), h3, if_pos rfl]

/-! ## C3 — long-list threshold boundary -/

/-- C3: a plain list text (no table lines, no indented bullets) with exactly
`min_long_list - 1` top-level items is not detected and never split by the
pipeline's structural stage; with exactly `min_long_list` top-level items it
is detected and split into exactly `ceil(min_long_list / items_per_chunk)`
chunks. -/
theorem c3_threshold_boundary (cfg : SplitterCfg) (gt t1 t2 : String)
    (hipc : 0 < cfg.items_per_chunk)
    (hmin : 0 < cfg.min_long_list)
    (hmt : 0 < cfg.min_long_table)
    (hng : 0 < cfg.min_nested_groups)
    (hni : 0 < cfg.min_nested_items)
    (h1count : mainItemCount (pyLines t1) = cfg.min_long_list - 1)
    (h1table : ∀ l ∈ pyLines t1, pyStartsWith (pyStrip l) "|" = false)
    (h1ind : ∀ l ∈ pyLines (subMarkers t1), matchIndentBullet l = false)
    (h2count : mainItemCount (pyLines t2) = cfg.min_long_list)
    (h2table : ∀ l ∈ pyLines t2, pyStartsWith (pyStrip l) "|" = false)
    (h2ind : ∀ l ∈ pyLines (subMarkers t2), matchIndentBullet l = false)
    (h2ind' : ∀ l ∈ pyLines t2, matchIndentBullet l = false) :
    (detect_long_list cfg t1 = false ∧ handleLong cfg gt t1 = [t1]) ∧
    (detect_long_list cfg t2 = true ∧
     handleLong cfg gt t2 = split_long_list cfg t2 gt ∧
     (split_long_list cfg t2 gt).length =
       (cfg.min_long_list + cfg.items_per_chunk - 1) / cfg.items_per_chunk) := by
  have hd1 : detect_long_list cfg t1 = false :=
    detect_list_false_of_lt cfg t1 (by omega)
  have hd2 : detect_long_list cfg t2 = true :=
    detect_list_true cfg t2 h2ind' (by omega)
  refine ⟨⟨hd1, handleLong_passthrough cfg gt t1
      (detect_nested_false cfg t1 h1ind hng hni)
      (detect_table_false cfg t1 h1table hmt) hd1⟩,
    hd2, handleLong_list cfg gt t2
      (detect_nested_false cfg t2 h2ind hng hni)
      (detect_table_false cfg t2 h2table hmt) hd2, ?_⟩
  rw [split_long_list_length cfg t2 gt hipc (by omega), h2count]
  have harith : cfg.min_long_list + cfg.items_per_chunk - 1 =
      (cfg.min_long_list - 1) + cfg.items_per_chunk := by omega
  rw [harith, Nat.add_div_right _ hipc]

/-! ## Sentence pieces have no internal split point (C2 amended) -/

/-- No internal sentence boundary: no adjacent pair
(terminator, whitespace). -/
def noB : List Char → Bool
  | [] => true
  | [_] => true
  | c :: d :: rest => !(sentPunct c && pyWs d) && noB (d :: rest)

/-- From `(!b) = true` conclude `b = false`. -/
theorem bool_not_true {b : Bool} (h : (!b) = true) : b = false := by
  cases b
  · rfl
  · simp at h

/-- Inside a boundary-free list, any adjacent pair is not a split point. -/
theorem noB_pair : ∀ (xs : List Char) (d c : Char) (ys : List Char),
    noB (xs ++ d :: c :: ys) = true → (sentPunct d && pyWs c) = false := by
  intro xs
  induction xs with
  | nil =>
    intro d c ys h
    rw [show ([] : List Char) ++ d :: c :: ys = d :: c :: ys from rfl] at h
    unfold noB at h
    exact bool_not_true (Bool.and_eq_true_iff.mp h).1
  | cons x xs ih =>
    intro d c ys h
    rcases xs with _ | ⟨e, xs'⟩
    · rw [show [x] ++ d :: c :: ys = x :: d :: c :: ys from rfl] at h
      unfold noB at h
      exact ih d c ys (Bool.and_eq_true_iff.mp h).2
    · rw [show (x :: e :: xs') ++ d :: c :: ys
          = x :: e :: (xs' ++ d :: c :: ys) from by simp] at h
      unfold noB at h
      exact ih d c ys (Bool.and_eq_true_iff.mp h).2

/-- Appending a char that does not form a split point with the last char
preserves boundary-freeness. -/
theorem noB_snoc : ∀ (xs : List Char) (c : Char),
    noB xs = true →
    (match xs.getLast? with
     | some d => (sentPunct d && pyWs c) = false
     | none => True) →
    noB (xs ++ [c]) = true := by
  intro xs
  induction xs with
  | nil => intro c _ _; rfl
  | cons x xs ih =>
    intro c h hlast
    rcases xs with _ | ⟨e, xs'⟩
    · rw [show [x] ++ [c] = x :: c :: [] from rfl]
      unfold noB
      rw [Bool.and_eq_true_iff]
      refine ⟨?_, rfl⟩
      have hgl : ([x] : List Char).getLast? = some x := rfl
      rw [hgl] at hlast
      cases hb : (sentPunct x && pyWs c)
      · rfl
      · rw [hlast] at hb
        exact hb
    · rw [show (x :: e :: xs') ++ [c] = x :: e :: (xs' ++ [c]) from by simp]
      have hx : noB (x :: e :: xs') = true := h
      unfold noB at hx
      obtain ⟨h1, h2⟩ := Bool.and_eq_true_iff.mp hx
      have hlast2 : (match (e :: xs').getLast? with
          | some d => (sentPunct d && pyWs c) = false
          | none => True) := by
        have hgl : (x :: e :: xs').getLast? = (e :: xs').getLast? := by
          simp [List.getLast?_cons_cons]
        rw [hgl] at hlast
        exact hlast
      have hrec := ih c h2 hlast2
      unfold noB
      rw [Bool.and_eq_true_iff]
      exact ⟨h1, hrec⟩

/-- A boundary-free list passes through the sentence splitter unsplit. -/
theorem sentGo_of_noB : ∀ (l acc : List Char), noB (acc ++ l) = true →
    sentGo l acc false = [acc ++ l] := by
  intro l
  induction l with
  | nil => intro acc _; simp [sentGo]
  | cons c rest ih =>
    intro acc h
    have hguard : (pyWs c &&
        (match acc.getLast? with
         | some d => sentPunct d
         | none => false)) = false := by
      rcases List.eq_nil_or_concat acc with hnil | ⟨xs, d, hacc⟩
      · subst hnil; simp
      · subst hacc
        have hp : (sentPunct d && pyWs c) = false := by
          apply noB_pair xs d c rest
          simpa [List.concat_eq_append, List.append_assoc] using h
        have hgl : (xs.concat d).getLast? = some d := by
          simp [List.concat_eq_append]
        rw [hgl]
        cases hpd : sentPunct d
        · simp [hpd]
        · rw [hpd] at hp
          simp only [Bool.true_and] at hp
          simp [hp]
    unfold sentGo
    rw [show (pyWs c && match acc.getLast? with
        | some d => sentPunct d
        | none => false) = false from hguard]
    rw [if_neg (by simp)]
    rw [ih (acc ++ [c]) (by simpa [List.append_assoc] using h)]
    simp

/-- Every piece emitted by the sentence splitter is boundary-free. -/
theorem sentGo_pieces_noB : ∀ (l piece : List Char) (inB : Bool),
    noB piece = true → ∀ s ∈ sentGo l piece inB, noB s = true := by
  intro l
  induction l with
  | nil =>
    intro piece inB hp s hs
    cases inB <;> (simp [sentGo] at hs; subst hs; exact hp)
  | cons c rest ih =>
    intro piece inB hp s hs
    cases inB with
    | false =>
      unfold sentGo at hs
      by_cases hg : (pyWs c && match piece.getLast? with
          | some d => sentPunct d
          | none => false) = true
      · rw [if_pos hg] at hs
        rcases List.mem_cons.mp hs with h | h
        · subst h; exact hp
        · exact ih [] true rfl s h
      · rw [if_neg hg] at hs
        have hsnoc : noB (piece ++ [c]) = true := by
          apply noB_snoc piece c hp
          rcases hl : piece.getLast? with _ | d
          · trivial
          · rw [hl] at hg
            rcases hpw : pyWs c
            · simp [hpw]
            · rw [hpw] at hg
              simp at hg
              simp [hg]
        exact ih (piece ++ [c]) false hsnoc s hs
    | true =>
      unfold sentGo at hs
      by_cases hw : pyWs c = true
      · rw [if_pos hw] at hs
        exact ih [] true rfl s hs
      · rw [if_neg hw] at hs
        exact ih [c] false rfl s hs

/-- Every sentence piece re-splits to itself: the pieces of
`re.split(r'(?<=[.!?])\s+', b)` contain no further split point. -/
theorem sentencesOf_piece (b : String) :
    ∀ s ∈ sentencesOf b, sentencesOf s = [s] := by
  intro s hs
  unfold sentencesOf at hs ⊢
  obtain ⟨p, hp, hmk⟩ := List.mem_map.mp hs
  subst hmk
  have hnoB := sentGo_pieces_noB b.data [] false rfl p hp
  rw [show (String.mk p).data = p from rfl]
  rw [sentGo_of_noB p [] (by simpa using hnoB)]
  rfl

/-! ## Weight-sum counting lemmas (C2 amended) -/

/-- For a zero-weight separator, the weight of an intercalation is the sum
of the parts' weights. -/
theorem countW_intercalate (w : Char → Nat) (sep : List Char)
    (hsep : (sep.map w).sum = 0) :
    ∀ gs : List (List Char),
      ((intercalateCh sep gs).map w).sum =
        (gs.map (fun g => (g.map w).sum)).sum := by
  intro gs
  induction gs with
  | nil => rfl
  | cons g gs ih =>
    cases gs with
    | nil => simp [intercalateCh]
    | cons g2 gs2 =>
      rw [show intercalateCh sep (g :: g2 :: gs2)
          = g ++ sep ++ intercalateCh sep (g2 :: gs2) from rfl]
      rw [List.map_append, List.map_append, List.sum_append, List.sum_append,
        hsep, ih]
      simp

/-- For a zero-weight separator string, the counter of a join is the sum of
the parts' counts. -/
theorem countW_joinSep (w : Char → Nat) (sep : String)
    (hsep : countW w sep = 0) (parts : List String) :
    countW w (joinSep sep parts) = (parts.map (countW w)).sum := by
  unfold joinSep
  rw [show countW w (String.mk (intercalateCh sep.data (parts.map String.data)))
      = ((intercalateCh sep.data (parts.map String.data)).map w).sum from rfl]
  rw [countW_intercalate w sep.data hsep]
  rw [List.map_map]
  rfl

/-- A whitespace-free weight gives `"\n\n"` count 0. -/
theorem countW_nlnl (w : Char → Nat) (hw : ∀ c : Char, pyWs c = true → w c = 0) :
    countW w "\n\n" = 0 := by
  have h := hw '\n' (by decide)
  simp [countW, h]

/-- A whitespace-free weight gives `"\n"` count 0. -/
theorem countW_nl (w : Char → Nat) (hw : ∀ c : Char, pyWs c = true → w c = 0) :
    countW w "\n" = 0 := by
  have h := hw '\n' (by decide)
  simp [countW, h]

/-- A single-part join is the part. -/
theorem joinSep_singleton (sep : String) (s : String) : joinSep sep [s] = s := rfl

/-- Budget predicate of the amended C2: a packed sub-chunk is within the
effective budget, or is a single indivisible sentence exceeding it. -/
def overBudgetOk (count : String → Nat) (eff : Int) (S : String) : Prop :=
  (count S : Int) ≤ eff ∨ (sentencesOf S = [S] ∧ eff < (count S : Int))

/-- Invariant of the inner sentence-packing loop of `_create_sub_chunks`:
emitted sub-chunks satisfy the budget predicate, the tracked token count is
the sum of the group's counts, the group is within budget or a single
oversized sentence, and all group members are indivisible pieces. -/
def sentInv (w : Char → Nat) (eff : Int)
    (st : List String × List String × Nat) : Prop :=
  (∀ S ∈ st.1, overBudgetOk (countW w) eff S) ∧
  st.2.2 = ((st.2.1).map (countW w)).sum ∧
  (st.2.1 = [] ∨ (st.2.2 : Int) ≤ eff ∨
    ∃ s, st.2.1 = [s] ∧ sentencesOf s = [s] ∧ eff < (countW w s : Int)) ∧
  (∀ s ∈ st.2.1, sentencesOf s = [s])

/-- One sentence-packing step preserves the invariant. -/
theorem sentStep_pres (w : Char → Nat)
    (hw : ∀ c : Char, pyWs c = true → w c = 0) (eff : Int)
    (st : List String × List String × Nat) (x : String)
    (hx : sentencesOf x = [x]) (hP : sentInv w eff st) :
    sentInv w eff (sentStep (countW w) eff st x) := by
  obtain ⟨hQ, hsum, hdisj, hpieces⟩ := hP
  rcases st with ⟨subs, group, gtok⟩
  simp only at hQ hsum hdisj hpieces
  unfold sentStep
  dsimp only
  by_cases hC : (decide ((gtok + countW w x : Int) > eff) && decide (group ≠ [])) = true
  · rw [if_pos hC]
    obtain ⟨hCa, hCb⟩ := Bool.and_eq_true_iff.mp hC
    have hgn : group ≠ [] := of_decide_eq_true hCb
    refine ⟨?_, by simp, ?_, ?_⟩
    · intro S hS
      rcases List.mem_append.mp hS with h | h
      · exact hQ S h
      · rw [List.mem_singleton.mp h]
        have hcount : countW w (joinNl group) = (group.map (countW w)).sum :=
          countW_joinSep w "\n" (countW_nl w hw) group
        rcases hdisj with hnil | hle | ⟨s, hgs, hss, hbig⟩
        · exact absurd hnil hgn
        · left
          rw [hcount, ← hsum]
          exact hle
        · right
          subst hgs
          rw [show joinNl [s] = s from joinSep_singleton "\n" s]
          exact ⟨hss, hbig⟩
    · by_cases hxe : (countW w x : Int) ≤ eff
      · right; left; simpa using hxe
      · right; right
        exact ⟨x, rfl, hx, by omega⟩
    · intro s hs
      rw [List.mem_singleton.mp hs]
      exact hx
  · rw [if_neg hC]
    have hnc : ¬((gtok + countW w x : Int) > eff ∧ group ≠ []) := by
      rintro ⟨h1, h2⟩
      exact hC (by simp [h1, h2])
    refine ⟨hQ, by simp [hsum], ?_, ?_⟩
    · by_cases hle : (gtok + countW w x : Int) ≤ eff
      · right; left; simpa using hle
      · have hgnil : group = [] := by
          by_contra hg
          exact hnc ⟨by omega, hg⟩
        subst hgnil
        have hg0 : gtok = 0 := by simpa using hsum
        subst hg0
        right; right
        refine ⟨x, by simp, hx, ?_⟩
        omega
    · intro s hs
      rcases List.mem_append.mp hs with h | h
      · exact hpieces s h
      · rw [List.mem_singleton.mp h]
        exact hx

/-- The whole sentence loop of `_create_sub_chunks` preserves the
invariant, starting from already-valid emitted sub-chunks. -/
theorem sentLoop_inv (w : Char → Nat)
    (hw : ∀ c : Char, pyWs c = true → w c = 0) (eff : Int) (b : String)
    (subs0 : List String)
    (hsubs0 : ∀ S ∈ subs0, overBudgetOk (countW w) eff S) :
    sentInv w eff
      ((sentencesOf b).foldl (sentStep (countW w) eff) (subs0, [], 0)) := by
  apply foldlInv
  · exact ⟨hsubs0, by simp, Or.inl rfl, by simp⟩
  · intro st x hxmem hP
    exact sentStep_pres w hw eff st x (sentencesOf_piece b x hxmem) hP

/-- Invariant of the outer block-packing loop of `_create_sub_chunks`. -/
def packInv (w : Char → Nat) (eff : Int) (st : PackSt) : Prop :=
  (∀ S ∈ st.subs, overBudgetOk (countW w) eff S) ∧
  st.curTok = (st.cur.map (countW w)).sum ∧
  (st.cur = [] ∨ (st.curTok : Int) ≤ eff ∨
    ∃ s, st.cur = [s] ∧ sentencesOf s = [s] ∧ eff < (countW w s : Int))

/-- Flushing a valid current sub-chunk emits a valid sub-chunk. -/
theorem flush_ok (w : Char → Nat)
    (hw : ∀ c : Char, pyWs c = true → w c = 0) (eff : Int) (st : PackSt)
    (hP : packInv w eff st) (hcur : st.cur ≠ []) :
    overBudgetOk (countW w) eff (joinSep "\n\n" st.cur) := by
  obtain ⟨_, hsum, hdisj⟩ := hP
  have hcount : countW w (joinSep "\n\n" st.cur) = (st.cur.map (countW w)).sum :=
    countW_joinSep w "\n\n" (countW_nlnl w hw) st.cur
  rcases hdisj with hnil | hle | ⟨s, hgs, hss, hbig⟩
  · exact absurd hnil hcur
  · left
    rw [hcount, ← hsum]
    exact hle
  · right
    rw [hgs, joinSep_singleton]
    exact ⟨hss, hbig⟩

/-- One block-packing step preserves the invariant. -/
theorem packStep_pres (w : Char → Nat)
    (hw : ∀ c : Char, pyWs c = true → w c = 0) (eff : Int) (st : PackSt)
    (b : String) (hP : packInv w eff st) :
    packInv w eff (packStep (countW w) eff st b) := by
  obtain ⟨hQ, hsum, hdisj⟩ := hP
  unfold packStep
  dsimp only
  by_cases hC1 : (countW w b : Int) > eff
  · rw [if_pos hC1]
    have hsubs1 : ∀ S ∈ (if st.cur ≠ [] then st.subs ++ [joinSep "\n\n" st.cur]
        else st.subs), overBudgetOk (countW w) eff S := by
      by_cases hcur : st.cur ≠ []
      · rw [if_pos hcur]
        intro S hS
        rcases List.mem_append.mp hS with h | h
        · exact hQ S h
        · rw [List.mem_singleton.mp h]
          exact flush_ok w hw eff st ⟨hQ, hsum, hdisj⟩ hcur
      · rw [if_neg hcur]
        exact hQ
    have hInner := sentLoop_inv w hw eff b _ hsubs1
    rcases hres : (sentencesOf b).foldl (sentStep (countW w) eff)
        ((if st.cur ≠ [] then st.subs ++ [joinSep "\n\n" st.cur] else st.subs),
          [], 0) with ⟨subs2, group, gtok⟩
    rw [hres] at hInner
    obtain ⟨hQ2, hsum2, hdisj2, hpieces2⟩ := hInner
    simp only at hQ2 hsum2 hdisj2 hpieces2
    by_cases hg : group ≠ []
    · rw [if_pos hg]
      refine ⟨hQ2, ?_, ?_⟩
      · have hcount : countW w (joinNl group) = (group.map (countW w)).sum :=
          countW_joinSep w "\n" (countW_nl w hw) group
        simp only
        rw [hsum2]
        simp [hcount]
      · rcases hdisj2 with hnil | hle | ⟨s, hgs, hss, hbig⟩
        · exact absurd hnil hg
        · right; left; exact hle
        · right; right
          refine ⟨s, ?_, hss, hbig⟩
          simp only
          rw [hgs, show joinNl [s] = s from joinSep_singleton "\n" s]
    · rw [if_neg hg]
      exact ⟨hQ2, by simp, Or.inl rfl⟩
  · rw [if_neg hC1]
    by_cases hC2 : (st.curTok + countW w b : Int) > eff
    · rw [if_pos hC2]
      refine ⟨?_, by simp, ?_⟩
      · by_cases hcur : st.cur ≠ []
        · rw [if_pos hcur]
          intro S hS
          rcases List.mem_append.mp hS with h | h
          · exact hQ S h
          · rw [List.mem_singleton.mp h]
            exact flush_ok w hw eff st ⟨hQ, hsum, hdisj⟩ hcur
        · rw [if_neg hcur]
          simpa using hQ
      · right; left
        simp only
        omega
    · rw [if_neg hC2]
      refine ⟨hQ, by simp [hsum], ?_⟩
      right; left
      simp only
      push_cast
      omega

/-- C2 amended: under any whitespace-free character-weight token counter,
every raw sub-chunk packed by `_create_sub_chunks` either keeps the sum of
its parts' token counts — equal to its own count for such counters — within
the effective limit `max_tokens - heading - 100`, or consists of a single
indivisible sentence whose count alone exceeds it.  The final chunk text can
still exceed `max_tokens` (see the counterexample): the heading line, the
continuation markers and the join separators are only covered by the flat
100-token reserve, and the table/list/nested splitters check no budget. -/
theorem c2_amended_pack_budget (w : Char → Nat)
    (hw : ∀ c : Char, pyWs c = true → w c = 0) (eff : Int)
    (blocks : List String) :
    ∀ S ∈ packBlocks (countW w) eff blocks,
      overBudgetOk (countW w) eff S := by
  unfold packBlocks
  have hinv := foldlInv (P := packInv w eff) (packStep (countW w) eff) blocks
    ⟨[], [], 0⟩ ⟨by simp, by simp, Or.inl rfl⟩
    (fun st x _ hP => packStep_pres w hw eff st x hP)
  obtain ⟨hQ, hsum, hdisj⟩ := hinv
  intro S hS
  dsimp only at hS
  rcases List.mem_append.mp hS with h | h
  · exact hQ S h
  · by_cases hcur : (blocks.foldl (packStep (countW w) eff) ⟨[], [], 0⟩).cur ≠ []
    · rw [if_pos hcur] at h
      rw [List.mem_singleton.mp h]
      exact flush_ok w hw eff _ ⟨hQ, hsum, hdisj⟩ hcur
    · rw [if_neg hcur] at h
      simp at h

/-! ## Concrete data used by witnesses and counterexamples -/

/-- A concrete working tokenizer: one token per character. -/
def encChar : String → Except String (List Nat) :=
  fun s => Except.ok (s.data.map Char.toNat)

/-- The whitespace-free counter: one token per non-whitespace character. -/
def wNonWs : Char → Nat := fun c => if pyWs c then 0 else 1

/-- A fragment whose section is one heading plus 66 tiny one-character
paragraphs: 201 characters once stripped. -/
def c2Frag : String :=
  joinNl ("## H" :: ((List.range 66).map (fun _ => [".", ""])).flatten)

/-- The character-level tokenizer (every character is one token). -/
def c2Tok : Tokenizer := some encChar

/-- A plain list of 24 top-level items (`min_long_list - 1` at defaults). -/
def c3List24 : String :=
  joinNl ((List.range 24).map fun i => "* item " ++ toString (i + 1))

/-- A plain list of 25 top-level items (`min_long_list` at defaults). -/
def c3List25 : String :=
  joinNl ((List.range 25).map fun i => "* item " ++ toString (i + 1))

/-- Is `sub` a prefix of some suffix of `l`? -/
def containsChAux (sub : List Char) : List Char → Bool
  | [] => sub.isPrefixOf []
  | c :: rest => sub.isPrefixOf (c :: rest) || containsChAux sub rest

/-- Models `sub in s` (substring containment). -/
def containsStr (s sub : String) : Bool := containsChAux sub.data s.data

/-- The 20 data rows of the concrete-scenario table. -/
def c4Rows : List String :=
  (List.range 20).map fun i =>
    "| a" ++ toString (i + 1) ++ " | b" ++ toString (i + 1) ++ " |"

/-- A markdown table with a header row, a separator row and 20 data rows
(spec concrete scenario 2). -/
def c4Table : String :=
  joinNl (["| Col1 | Col2 |", "| --- | --- |"] ++ c4Rows)

/-- A long table followed by a trailing paragraph; the marker character `Z`
occurs only after the table. -/
def c1TableWithTail : String := c4Table ++ "\nZ trailing paragraph."

/-- A 50-character preamble followed by the first ATX heading
(spec concrete scenario 4). -/
def c7Doc : String :=
  "This is a preamble of fifty characters exactly ok\n\n## Guide Section\n\nSome body text for the merged section."

/-! ## C6 — the token counter is total and returns 0 on unavailability or
backend failure -/

/-- C6: for every input text the token counter returns a non-negative
integer and never raises: it returns 0 when the tokenizer is unavailable,
and 0 when the tokenizer backend fails internally on this text, rather than
propagating the exception. -/
theorem count_tokens_total (tok : Tokenizer) (text : String) :
    0 ≤ count_tokens tok text ∧
    (tok = none → count_tokens tok text = 0) ∧
    (∀ enc e, tok = some enc → enc text = Except.error e →
      count_tokens tok text = 0) := by
  refine ⟨Nat.zero_le _, ?_, ?_⟩
  · rintro rfl; rfl
  · rintro enc e rfl herr
    unfold count_tokens
    by_cases h : text = ""
    · simp [h]
    · simp [h, herr]

/-- Witness for C6 at a concrete failing backend and text. -/
theorem count_tokens_total_witness :
    count_tokens (some fun _ => Except.error "backend failure") "abc" = 0 :=
  (count_tokens_total (some fun _ => Except.error "backend failure") "abc").2.2
    (fun _ => Except.error "backend failure") "backend failure" rfl rfl

/-! ## C10 — the empty string is counted as 0 without delegating to the
tokenizer -/

/-- C10: `count_tokens` returns 0 for the empty string (the only falsy
`str`) even when a tokenizer is loaded, for every possible backend — so it
never delegates to the tokenizer on empty input. -/
theorem count_tokens_empty_no_delegation :
    ∀ enc : String → Except String (List Nat),
      count_tokens (some enc) "" = 0 :=
  fun _ => rfl

/-! ## C9 — the structural splitters ignore `guide_title` -/

/-- C9: for every text and any two guide titles, the three structural
splitters return identical results: their output does not depend on
`guide_title`. -/
theorem splitters_ignore_guide_title (cfg : SplitterCfg) (text t1 t2 : String) :
    split_long_list cfg text t1 = split_long_list cfg text t2 ∧
    split_long_table cfg text t1 = split_long_table cfg text t2 ∧
    split_nested_bullet_table cfg text t1 = split_nested_bullet_table cfg text t2 :=
  ⟨rfl, rfl, rfl⟩

/-- Witness for C3 at the default thresholds: 24 items pass through, 25
items split into 3 chunks. -/
theorem c3_threshold_boundary_witness :
    (detect_long_list tcfgDefault c3List24 = false ∧
     handleLong tcfgDefault "" c3List24 = [c3List24]) ∧
    (detect_long_list tcfgDefault c3List25 = true ∧
     handleLong tcfgDefault "" c3List25 = split_long_list tcfgDefault c3List25 "" ∧
     (split_long_list tcfgDefault c3List25 "").length = 3) :=
  c3_threshold_boundary tcfgDefault "" c3List24 c3List25
    (by decide) (by decide) (by decide) (by decide) (by decide)
    (by decide) (by decide) (by decide)
    (by decide) (by decide) (by decide) (by decide)

/-! ## C4 — concrete 20-row table scenario -/

/-- C4: the 20-row table with `min_long_table = 15` and `rows_per_chunk = 8`
(the defaults) is detected as a long table and split into exactly 3 chunks
whose range annotations are Rows 1-8, 9-16 and 17-20, each chunk repeating
the header row and the separator row. -/
theorem c4_table_scenario :
    detect_long_table tcfgDefault c4Table = true ∧
    (split_long_table tcfgDefault c4Table "").length = 3 ∧
    ((split_long_table tcfgDefault c4Table "").all fun c =>
      containsStr c "| Col1 | Col2 |" && containsStr c "| --- | --- |") = true ∧
    ((split_long_table tcfgDefault c4Table "")[0]?.map fun c =>
      containsStr c "**[Part 1: Rows 1-8 of 20 total]**") = some true ∧
    ((split_long_table tcfgDefault c4Table "")[1]?.map fun c =>
      containsStr c "**[Part 2: Rows 9-16 of 20 total]**") = some true ∧
    ((split_long_table tcfgDefault c4Table "")[2]?.map fun c =>
      containsStr c "**[Part 3: Rows 17-20 of 20 total]**") = some true := by
  decide

/-! ## C7 — foundry preamble absorption: the code raises `AttributeError` -/

/-- C7 (code bug): on the 50-character-preamble-plus-first-ATX-heading
document of the spec's concrete scenario 4, `chunk_by_headings_foundry`
does not merge the preamble — it raises `AttributeError`, because the method
`_starts_with_heading` called on line 140 of chunker.py is not defined
anywhere in the repository (only `_starts_with_heading_any_or_numbered`
exists).  The error is reached whenever at least one heading is found. -/
theorem c7_foundry_attribute_error :
    chunk_by_headings_foundry c7Doc = Except.error () := rfl

/-! ## C1 — content loss: the long-table splitter drops trailing content -/

/-- C1 counterexample: the input contains the character `Z` (in a paragraph
following the 20-row table), but no chunk produced by `split_long_table`
contains `Z` — the splitter drops all content after the table, so
concatenating the chunks cannot reproduce the input's non-whitespace
content.  The same input is split this way by the pipeline's
`_handle_long_structures` since the table is detected as long. -/
theorem c1_table_drops_tail_cx :
    c1TableWithTail.data.contains 'Z' = true ∧
    detect_long_table tcfgDefault c1TableWithTail = true ∧
    ((handleLong tcfgDefault "" c1TableWithTail).all fun c =>
      !containsStr c "Z") = true := by
  decide

/-- C1 amended: the long-list splitter loses no content — the stripped
heading text followed by the extracted items reproduces the input's
non-whitespace characters exactly and in order, and the output chunks are
exactly the batched items with heading/marker context.  (The long-table and
nested-bullet splitters drop trailing content; see the counterexample.) -/
theorem c1_amended_list_preserves (cfg : SplitterCfg) (gt t : String)
    (hpos : 0 < mainItemCount (pyLines t)) :
    nonWs (pyStrip (joinNl (listHeadingLines t))).data ++
      ((listItemsOf t).map lineNonWs).flatten = nonWs t.data ∧
    split_long_list cfg t gt =
      mkListChunksAux cfg (pyStrip (joinNl (listHeadingLines t)))
        (listItemsOf t).length (listItemsOf t).length 0 (listItemsOf t) := by
  constructor
  · have h1 : nonWs (pyStrip (joinNl (listHeadingLines t))).data
        = ((listHeadingLines t).map lineNonWs).flatten := by
      unfold pyStrip
      rw [show (String.mk (stripCh (joinNl (listHeadingLines t)).data)).data
          = stripCh (joinNl (listHeadingLines t)).data from rfl]
      rw [nonWs_stripCh, nonWs_joinNl]
    rw [h1, listItemsOf_nonWs, nonWs_eq_lines]
    have hsplit : listHeadingLines t ++
        (pyLines t).drop (listHeadingLines t).length = pyLines t := by
      unfold listHeadingLines
      rw [drop_length_takeWhile]
      exact List.takeWhile_append_dropWhile _ _
    conv_rhs => rw [← hsplit]
    rw [List.map_append, List.flatten_append]
  · unfold split_long_list
    rw [if_neg (listHeadingLines_ne t hpos), if_neg (listItemsOf_ne_nil t hpos)]

/-- A short list with a preamble, used to witness the amended C1. -/
def c1SmallList : String := "Intro line\n* alpha 1\nmore alpha\n* beta 2"

/-- Witness for the amended C1 at a concrete list text. -/
theorem c1_amended_list_preserves_witness :
    nonWs (pyStrip (joinNl (listHeadingLines c1SmallList))).data ++
      ((listItemsOf c1SmallList).map lineNonWs).flatten = nonWs c1SmallList.data ∧
    split_long_list tcfgDefault c1SmallList "" =
      mkListChunksAux tcfgDefault (pyStrip (joinNl (listHeadingLines c1SmallList)))
        (listItemsOf c1SmallList).length (listItemsOf c1SmallList).length 0
        (listItemsOf c1SmallList) :=
  c1_amended_list_preserves tcfgDefault "" c1SmallList (by decide)

/-! ## C8 — trimming is not idempotent on structural-splitter chunks -/

/-- C8 counterexample: the chunks produced for the long table by the
pipeline's `_handle_long_structures` begin with the `'\n'` of the injected
range-annotation marker (the table has no preceding heading), so trimming
changes every one of them. -/
theorem c8_untrimmed_chunk_cx :
    (handleLong tcfgDefault "" c4Table ≠ []) ∧
    ((handleLong tcfgDefault "" c4Table).all fun c => pyStrip c != c) = true := by
  decide

/-! ## C8 amended — chunks are trimmed before the oversized-splitting
stage -/

/-- One recombiner step either keeps the output list or appends the
stripped current section. -/
theorem recombineStep_fst (tok : Tokenizer) (M : Nat) (out : List String)
    (cur ch : String) :
    (recombineStep tok M (out, cur) ch).1 = out ∨
    (recombineStep tok M (out, cur) ch).1 = out ++ [pyStrip cur] := by
  unfold recombineStep
  dsimp only
  by_cases h1 : pyStrip ch = ""
  · rw [if_pos h1]; left; rfl
  · rw [if_neg h1]
    by_cases h2 : (pyHeadingMatch (pyStrip ch) && decide (cur ≠ "")) = true
    · rw [if_pos h2]; right; rfl
    · rw [if_neg h2]
      by_cases h3 : cur ≠ ""
      · rw [if_pos h3]
        by_cases h4 : tok.isSome = true
        · rw [if_pos h4]
          by_cases h5 : count_tokens tok (pyStrip (cur ++ "\n\n" ++ pyStrip ch)) ≤ M
          · rw [if_pos h5]; left; rfl
          · rw [if_neg h5]; right; rfl
        · rw [if_neg h4]; left; rfl
      · rw [if_neg h3]; left; rfl

/-- Every chunk flushed by the recombiner fold is stripped. -/
theorem recombineCore_stripped (tok : Tokenizer) (M : Nat)
    (chunks : List String) :
    ∀ c ∈ recombineCore tok M chunks, pyStrip c = c := by
  unfold recombineCore
  have hinv := foldlInv
    (P := fun st : List String × String => ∀ c ∈ st.1, pyStrip c = c)
    (recombineStep tok M) chunks ([], "") (by simp) ?_
  · rcases hst : chunks.foldl (recombineStep tok M) ([], "") with ⟨out, cur⟩
    rw [hst] at hinv
    intro c hc
    dsimp only at hc
    by_cases hcur : cur ≠ ""
    · rw [if_pos hcur] at hc
      rcases List.mem_append.mp hc with h | h
      · exact hinv c h
      · rw [List.mem_singleton.mp h]
        exact pyStrip_idem cur
    · rw [if_neg hcur, List.append_nil] at hc
      exact hinv c hc
  · rintro ⟨out, cur⟩ ch _ hP
    rcases recombineStep_fst tok M out cur ch with h | h <;> rw [h]
    · exact hP
    · intro c hc
      rcases List.mem_append.mp hc with hm | hm
      · exact hP c hm
      · rw [List.mem_singleton.mp hm]
        exact pyStrip_idem cur

/-- The orphan-heading merge preserves strippedness. -/
theorem mergeOrphans_stripped :
    ∀ (n : Nat) (chunks : List String), chunks.length ≤ n →
      (∀ c ∈ chunks, pyStrip c = c) →
      ∀ c ∈ mergeOrphans chunks, pyStrip c = c := by
  intro n
  induction n with
  | zero =>
    intro chunks hle _
    have : chunks = [] := List.length_eq_zero.mp (Nat.le_zero.mp hle)
    subst this
    intro c hc
    simp [mergeOrphans] at hc
  | succ n ih =>
    intro chunks hle hall
    match chunks with
    | [] => intro c hc; simp [mergeOrphans] at hc
    | c0 :: rest =>
      intro c hc
      unfold mergeOrphans at hc
      by_cases hcond : (pyWordCount c0 < 15 ∧ pyHeadingMatch c0 = true)
      · rw [if_pos (by simpa using hcond)] at hc
        match rest with
        | [] =>
          simp only at hc
          rcases List.mem_cons.mp hc with h | h
          · rw [h]; exact hall c0 (by simp)
          · simp [mergeOrphans] at h
        | nxt :: rest2 =>
          simp only at hc
          rcases List.mem_cons.mp hc with h | h
          · rw [h]; exact pyStrip_idem _
          · exact ih rest2 (by simp at hle ⊢; omega)
              (fun x hx => hall x (by simp [hx])) c h
      · rw [if_neg (by simpa using hcond)] at hc
        rcases List.mem_cons.mp hc with h | h
        · rw [h]; exact hall c0 (by simp)
        · exact ih rest (by simp at hle ⊢; omega)
            (fun x hx => hall x (by simp [hx])) c h

/-- C8 amended: every chunk emitted by the recombiner before the
oversized-splitting stage (the fold plus the orphan-heading merge) is
already whitespace-trimmed; full idempotence fails only for the
structural-splitter and oversized sub-chunks (see the counterexample). -/
theorem c8_amended_presplit_trimmed (tok : Tokenizer) (M : Nat)
    (chunks : List String) (c : String)
    (hc : c ∈ mergeOrphans (recombineCore tok M chunks)) : pyStrip c = c :=
  mergeOrphans_stripped (recombineCore tok M chunks).length
    (recombineCore tok M chunks) (le_refl _)
    (recombineCore_stripped tok M chunks) c hc

/-- Witness for the amended C8 at a concrete recombiner run. -/
theorem c8_amended_presplit_trimmed_witness :
    pyStrip "## A\n\nbody" = "## A\n\nbody" :=
  c8_amended_presplit_trimmed none 10 ["## A", "body"] "## A\n\nbody" (by decide)

/-! ## C2 — budget respect -/

/-- Witness for the amended C2 at a concrete counter, budget and block list
(the oversized single-sentence block is emitted alone). -/
theorem c2_amended_pack_budget_witness :
    overBudgetOk (countW wNonWs) 5 "one two." :=
  c2_amended_pack_budget wNonWs (fun c h => by simp [wNonWs, h]) 5
    ["one two.", "three"] "one two." (by decide)

/-- C2 counterexample: with a working character-level tokenizer
(`count = len`) and `max_tokens = 200`, the pipeline emits a chunk of 222
tokens — over budget — although it contains at least two sentences and
every one of its sentences (and lines) is individually within budget, so
the single-indivisible-unit exception does not apply.  The packer compared
only the sum of the block counts (95 ≤ 200 − 4 − 100) and never re-measured
the assembled chunk with its `'\n\n'` joins, heading and marker. -/
theorem c2_budget_exceeded_cx :
    ∃ c ∈ pipelineChunks c2Tok 200 tcfgDefault "" [c2Frag],
      200 < count_tokens c2Tok c ∧
      2 ≤ (sentencesOf c).length ∧
      (∀ s ∈ sentencesOf c, count_tokens c2Tok s ≤ 200) ∧
      (∀ l ∈ pyLines c, count_tokens c2Tok l ≤ 200) := by
  decide

/-! ## C5 — the recombiner's merge step -/

/-- C5: for every non-heading fragment considered while a current section
exists and the tokenizer is available, the recombiner measures the
tentative concatenation (current section, blank-line separator, fragment):
within budget it accepts the merge; over budget it flushes the current
section unchanged and the new current section is the whole fragment alone —
no prefix or suffix of a fragment is carried into a different section. -/
theorem recombine_merge_step_exact (enc : String → Except String (List Nat))
    (M : Nat) (out : List String) (cur frag : String)
    (hcur : cur ≠ "") (hne : pyStrip frag ≠ "")
    (hnh : pyHeadingMatch (pyStrip frag) = false) :
    (count_tokens (some enc) (pyStrip (cur ++ "\n\n" ++ pyStrip frag)) ≤ M →
      recombineStep (some enc) M (out, cur) frag =
        (out, pyStrip (cur ++ "\n\n" ++ pyStrip frag))) ∧
    (M < count_tokens (some enc) (pyStrip (cur ++ "\n\n" ++ pyStrip frag)) →
      recombineStep (some enc) M (out, cur) frag =
        (out ++ [pyStrip cur], pyStrip frag)) := by
  unfold recombineStep
  simp only [hne, hnh, hcur, if_false, if_neg, Bool.false_and, Option.isSome_some,
    if_true, ite_true, ite_false, ne_eq, not_false_iff, Bool.false_eq_true]
  constructor
  · intro h
    simp [hne, hcur, h]
  · intro h
    simp [hne, hcur, Nat.not_le.mpr h]

/-- Witness for C5 at a concrete tokenizer, state and fragment
(both branches exercised). -/
theorem recombine_merge_step_exact_witness :
    recombineStep (some encChar) 100 ([], "## A") "body" = ([], "## A\n\nbody") ∧
    recombineStep (some encChar) 5 ([], "## A") "body" = (["## A"], "body") :=
  ⟨(recombine_merge_step_exact encChar 100 [] "## A" "body" (by decide) (by decide)
      (by decide)).1 (by decide),
   (recombine_merge_step_exact encChar 5 [] "## A" "body" (by decide) (by decide)
      (by decide)).2 (by decide)⟩

end UTD
